import Mathlib

/-!
# Verification of the mksite document parser and HTML emitter

Shallow embedding of `src/main.c` (a static site generator: line classifier,
inline renderer, block parser, document assembler).  Input text is modelled as
`List Char`; each `fprintf`/`fputc` call of the emitter becomes one `Item` in
an output list, and `Item.render` reproduces the exact bytes the C code prints.
C byte-classification functions (`isdigit`, `isalnum`, `tolower`, `isspace`)
are modelled on ASCII code points via `Char.toNat`, matching the default C
locale on the byte range the program manipulates structurally.

Recursive loops that advance a cursor by computed amounts are embedded with an
explicit fuel argument equal to the input length (the loops consume at least
one character per iteration, proved below as fuel-irrelevance lemmas), keeping
every definition structurally recursive and kernel-computable.
-/

set_option maxRecDepth 10000

namespace Mksite

/-- The backtick character (ASCII 96). -/
def backtick : Char := Char.ofNat 96

/-- C `isdigit` on bytes: ASCII '0'..'9'. -/
def isdigit (c : Char) : Bool := 48 ≤ c.toNat && c.toNat ≤ 57

/-- C `isalnum` on bytes (default locale): digits and ASCII letters. -/
def isalnum (c : Char) : Bool :=
  isdigit c || (97 ≤ c.toNat && c.toNat ≤ 122) || (65 ≤ c.toNat && c.toNat ≤ 90)

/-- C `tolower` on bytes (default locale): maps 'A'..'Z' to 'a'..'z'. -/
def tolower (c : Char) : Char :=
  if 65 ≤ c.toNat ∧ c.toNat ≤ 90 then Char.ofNat (c.toNat + 32) else c

/-- C `isspace` on bytes: space, \t, \n, \v, \f, \r. -/
def isspace (c : Char) : Bool := c.toNat == 32 || (9 ≤ c.toNat && c.toNat ≤ 13)

/-! ## Date formatting (`format_date`, main.c:182-198) -/

/-- `MONTHS_FULL` (main.c:151). -/
def MONTHS_FULL : List String :=
  ["January", "February", "March", "April", "May", "June", "July", "August",
   "September", "October", "November", "December"]

/-- `MONTHS_ABBR` (main.c:166). -/
def MONTHS_ABBR : List String :=
  ["Jan", "Feb", "Mar", "Apr", "May", "Jun", "Jul", "Aug", "Sep", "Oct", "Nov", "Dec"]

/-- Numeric value of a digit run, most significant first. -/
def digitsVal (ds : List Char) : Nat := ds.foldl (fun acc c => 10 * acc + (c.toNat - 48)) 0

/-- Scan a maximal digit run; fails when the run is empty
(the digit-matching part of a `%d` conversion). -/
def scanDigits (s : List Char) : Option (Nat × List Char) :=
  let ds := s.takeWhile isdigit
  if ds.length = 0 then none else some (digitsVal ds, s.drop ds.length)

/-- One `sscanf` `%d` conversion: skip whitespace, optional sign, digit run.
Values are modelled as unbounded `Int` (the C `i32` overflow region is
undefined behaviour and is not relied on by any theorem below). -/
def scanInt (s : List Char) : Option (Int × List Char) :=
  match s.dropWhile isspace with
  | [] => none
  | c :: t =>
    if c = '-' then (scanDigits t).map fun p => (-(p.1 : Int), p.2)
    else if c = '+' then (scanDigits t).map fun p => ((p.1 : Int), p.2)
    else (scanDigits (c :: t)).map fun p => ((p.1 : Int), p.2)

/-- `sscanf(iso_date, "%d-%d-%d", &year, &month, &day)` returning the three
values when all three conversions succeed (literal '-' must match exactly). -/
def sscanf_d_d_d (s : List Char) : Option (Int × Int × Int) :=
  match scanInt s with
  | none => none
  | some (y, r1) =>
    match r1 with
    | [] => none
    | c1 :: r2 =>
      if c1 = '-' then
        match scanInt r2 with
        | none => none
        | some (m, r3) =>
          match r3 with
          | [] => none
          | c2 :: r4 =>
            if c2 = '-' then
              match scanInt r4 with
              | none => none
              | some (d, _) => some (y, m, d)
            else none
      else none

/-- `%2d`: decimal representation, space-padded on the left to width 2. -/
def intPad2 (n : Int) : String :=
  let s := toString n
  String.mk (List.replicate (2 - s.length) ' ') ++ s

/-- `%04d`: decimal representation, zero-padded to width 4 (sign first). -/
def intPad04 (n : Int) : String :=
  if n < 0 then
    let s := toString (-n)
    "-" ++ String.mk (List.replicate (3 - s.length) '0') ++ s
  else
    let s := toString n
    String.mk (List.replicate (4 - s.length) '0') ++ s

/-- `snprintf(out, 32, ...)` keeps at most 31 characters. -/
def truncate31 (s : String) : String := (s.toList.take 31).asString

/-- Result of `format_date` (main.c:182).  `fail` is `return false`
(reported to the caller); `abort` is the `assert(month >= 1 && month <= 12)`
firing, which terminates the process instead of reporting failure. -/
inductive FdResult where
  | ok (s : String)
  | fail
  | abort
deriving DecidableEq, Repr

/-- `format_date` (main.c:182-190): scan `"%d-%d-%d"`, assert the month range,
then `snprintf(out, 32, "%s %2d, %04d", dict[month-1], day, year)`. -/
def format_date (iso_date : List Char) (dict : List String) : FdResult :=
  match sscanf_d_d_d iso_date with
  | none => .fail
  | some (y, m, d) =>
    if 1 ≤ m ∧ m ≤ 12 then
      .ok (truncate31 (dict.getD (m - 1).toNat "" ++ " " ++ intPad2 d ++ ", " ++ intPad04 y))
    else .abort

/-- `format_date_full` (main.c:192). -/
def format_date_full (iso_date : List Char) : FdResult := format_date iso_date MONTHS_FULL

/-- `format_date_abbr` (main.c:196). -/
def format_date_abbr (iso_date : List Char) : FdResult := format_date iso_date MONTHS_ABBR

/-! ## `slugify` (main.c:222-244) -/

/-- The scan loop of `slugify`: `j` is the number of characters already
emitted, `cap` is `output_size - 1` (u32 arithmetic; all call sites pass
`output_size = 256`).  Returns the characters the loop writes. -/
def slugify_go (cap : Nat) : List Char → Nat → Bool → List Char
  | [], _, _ => []
  | c :: rest, j, prev_was_dash =>
    if j < cap then
      if isalnum c then tolower c :: slugify_go cap rest (j + 1) false
      else if !prev_was_dash then '-' :: slugify_go cap rest (j + 1) true
      else slugify_go cap rest j prev_was_dash
    else []

/-- `slugify(input, output, output_size)`: keep lowercased alphanumerics,
collapse runs of other bytes to one '-' (leading dashes skipped via the
initial `prev_was_dash = true`), then strip one trailing dash. -/
def slugify (input : List Char) (output_size : Nat) : List Char :=
  let raw := slugify_go (output_size - 1) input 0 true
  if raw.getLast? = some '-' then raw.dropLast else raw

/-! ## Line classifier (main.c:246-388) -/

/-- `is_blank_line` (main.c:246): only spaces and tabs (true for empty). -/
def is_blank_line (line : List Char) : Bool :=
  line.all fun c => c == ' ' || c == '\t'

/-- `is_code_fence` (main.c:255): length ≥ 3 and first three bytes backticks. -/
def is_code_fence (line : List Char) : Bool :=
  match line with
  | a :: b :: c :: _ => a == backtick && b == backtick && c == backtick
  | _ => false

/-- `get_heading_level` (main.c:259): count leading '#', require 1..6 of them
followed by a space; otherwise 0. -/
def get_heading_level (line : List Char) : Nat :=
  let level := (line.takeWhile fun c => c == '#').length
  if 1 ≤ level ∧ level ≤ 6 ∧ (line.drop level).head? = some ' ' then level else 0

/-- `is_unordered_list_item` (main.c:270): "- " prefix. -/
def is_unordered_list_item (line : List Char) : Bool :=
  match line with
  | c1 :: c2 :: _ => c1 == '-' && c2 == ' '
  | _ => false

/-- `is_ordered_list_item` (main.c:274): one or more digits, '.', ' '. -/
def is_ordered_list_item (line : List Char) : Bool :=
  let i := (line.takeWhile isdigit).length
  decide (0 < i) &&
    match line.drop i with
    | c1 :: c2 :: _ => c1 == '.' && c2 == ' '
    | _ => false

/-- `get_list_item_offset` (main.c:376): 2 for "- ", digits+2 for "N. ". -/
def get_list_item_offset (line : List Char) : Nat :=
  if is_unordered_list_item line then 2
  else if is_ordered_list_item line then (line.takeWhile isdigit).length + 2
  else 0

/-- `cursor += line_len; if (*cursor == '\n') cursor++;` — advance the cursor
past the current line and its terminator. -/
def nextCursor (cursor : List Char) : List Char :=
  let rest := cursor.drop (cursor.takeWhile fun c => c ≠ '\n').length
  if rest.head? = some '\n' then rest.tail else rest

/-! ## Emitted output

Each `fprintf`/`fputc` of the emitter becomes one `Item`; `Item.render`
reproduces the exact bytes printed.  Structural markup (tags the emitter
itself writes) is kept as constructors so that tag counts are about the
markup the program emits, not about substrings of user text passed through
verbatim. -/

/-- HTML elements whose open/close tags the emitter prints as dedicated
`fprintf` calls.  `preCode` stands for the combined `<pre><code>` /
`</code></pre>` pair printed by single calls. -/
inductive Tag where
  | sec
  | p
  | ul
  | ol
  | li
  | preCode
  | h (n : Nat)
  | strong
  | em
  | mark
  | spanSide
  | spanMargin
deriving DecidableEq, Repr

/-- One output call of the emitter. -/
inductive Item where
  | str (s : String)
  | openT (t : Tag)
  | closeT (t : Tag)
  | codeSpan (s : String)
  | snLabel (id : Nat)
  | snInput (id : Nat)
  | mnLabel (id : Nat)
  | mnInput (id : Nat)
deriving DecidableEq, Repr

/-- Exact bytes of an opening tag as printed by the source. -/
def Tag.openBytes : Tag → String
  | .sec => "<section>\n"
  | .p => "<p>"
  | .ul => "<ul>\n"
  | .ol => "<ol>\n"
  | .li => "<li>"
  | .preCode => "<pre><code>"
  | .h n => "<h" ++ toString n ++ ">"
  | .strong => "<strong>"
  | .em => "<em>"
  | .mark => "<mark>"
  | .spanSide => "<span class=\"sidenote\">"
  | .spanMargin => "<span class=\"marginnote\">"

/-- Exact bytes of a closing tag as printed by the source. -/
def Tag.closeBytes : Tag → String
  | .sec => "</section>\n"
  | .p => "</p>\n"
  | .ul => "</ul>\n"
  | .ol => "</ol>\n"
  | .li => "</li>\n"
  | .preCode => "</code></pre>\n"
  | .h n => "</h" ++ toString n ++ ">\n"
  | .strong => "</strong>"
  | .em => "</em>"
  | .mark => "</mark>"
  | .spanSide => "</span>"
  | .spanMargin => "</span>"

/-- The bytes a single output call prints (main.c:565-578 for the note
markup, main.c:626 for inline code spans). -/
def Item.render : Item → String
  | .str s => s
  | .openT t => t.openBytes
  | .closeT t => t.closeBytes
  | .codeSpan s => "<code>" ++ s ++ "</code>"
  | .snLabel id =>
    "<label for=\"sn-" ++ toString id ++ "\" class=\"margin-toggle sidenote-number\"></label>"
  | .snInput id =>
    "<input type=\"checkbox\" id=\"sn-" ++ toString id ++ "\" class=\"margin-toggle\"/>"
  | .mnLabel id => "<label for=\"mn-" ++ toString id ++ "\" class=\"margin-toggle\">&#8853;</label>"
  | .mnInput id =>
    "<input type=\"checkbox\" id=\"mn-" ++ toString id ++ "\" class=\"margin-toggle\"/>"

/-- Concatenated bytes of a run of output calls. -/
def renderItems (l : List Item) : String := String.join (l.map Item.render)

/-! ## Inline renderer (main.c:491-673) -/

/-- `FormatType` (main.c:491). -/
inductive FormatType where
  | fnone
  | bold
  | italic
  | highlight
  | inlineCode
  | sidenote
  | marginNote
deriving DecidableEq, Repr

/-- `get_format_type(text, pos, len)` (main.c:516-531), on the slice starting
at `pos`.  The conditions `pos+k < len` become pattern-shape requirements on
the remaining list; the if-else priority order of the source is preserved. -/
def get_format_type (text : List Char) : FormatType :=
  match text with
  | c1 :: c2 :: t =>
    if c1 = '*' ∧ c2 = '*' then .bold
    else if c1 = '_' ∧ c2 = '_' then .italic
    else if c1 = '=' ∧ c2 = '=' then .highlight
    else if c1 = backtick ∧ c2 ≠ backtick then .inlineCode
    else if c1 = '^' ∧ c2 = '-' ∧ t.head? = some '[' then .marginNote
    else if c1 = '^' ∧ c2 = '[' then .sidenote
    else .fnone
  | _ => .fnone

/-- `write_html_escaped` (main.c:533): `<` `>` `&` become entities, other
bytes pass through. -/
def write_html_escaped (text : List Char) : String :=
  text.foldl
    (fun acc c =>
      if c = '<' then acc ++ "&lt;"
      else if c = '>' then acc ++ "&gt;"
      else if c = '&' then acc ++ "&amp;"
      else acc ++ String.singleton c)
    ""

/-- `find_closing_bracket` (main.c:546-559) reformulated on the remaining
slice: starting at nesting `depth`, return the content before the bracket
that brings the depth to zero together with the text after it, or `none`
when no such bracket exists (the C function returns `len` in that case). -/
def find_closing_bracket (depth : Nat) : List Char → Option (List Char × List Char)
  | [] => none
  | c :: t =>
    if c = '[' then (find_closing_bracket (depth + 1) t).map fun p => ('[' :: p.1, p.2)
    else if c = ']' then
      if depth = 1 then some ([], t)
      else (find_closing_bracket (depth - 1) t).map fun p => (']' :: p.1, p.2)
    else (find_closing_bracket depth t).map fun p => (c :: p.1, p.2)

/-- The scan `while (j < len && text[j] != '`') ++j` of the inline-code case
(main.c:620-623): content before the next backtick plus the text after it,
or `none` when the slice has no further backtick. -/
def scanBacktick : List Char → Option (List Char × List Char)
  | [] => none
  | c :: t =>
    if c = backtick then some ([], t)
    else (scanBacktick t).map fun p => (c :: p.1, p.2)

/-- The forced closers emitted at end of slice (main.c:664-672), in the
source order strong, em, mark. -/
def closers (b i h : Bool) : List Item :=
  (if b then [Item.closeT .strong] else []) ++
    (if i then [Item.closeT .em] else []) ++
    (if h then [Item.closeT .mark] else [])

/-- `write_formatted_content` (main.c:581-673) with explicit fuel; the loop
index becomes list consumption, and `in_bold`/`in_italic`/`in_highlight` are
the booleans `b i h`.  The note counter `ctr` is `state->sidenote_id`,
threaded through the recursive note rendering (`write_sidenote` /
`write_margin_note`, main.c:563-579, pre-increment the counter, print
label/input/span, recurse on the bracketed content with fresh toggles, then
close the span).  Fuel `text.length` is always sufficient (`wfF_congr`). -/
def wfF : Nat → List Char → Nat → Bool → Bool → Bool → List Item × Nat
  | 0, _, ctr, b, i, h => (closers b i h, ctr)
  | _ + 1, [], ctr, b, i, h => (closers b i h, ctr)
  | f + 1, c :: rest, ctr, b, i, h =>
    match get_format_type (c :: rest) with
    | .bold =>
      let r := wfF f (rest.drop 1) ctr (!b) i h
      ((if b then Item.closeT .strong else Item.openT .strong) :: r.1, r.2)
    | .italic =>
      let r := wfF f (rest.drop 1) ctr b (!i) h
      ((if i then Item.closeT .em else Item.openT .em) :: r.1, r.2)
    | .highlight =>
      let r := wfF f (rest.drop 1) ctr b i (!h)
      ((if h then Item.closeT .mark else Item.openT .mark) :: r.1, r.2)
    | .inlineCode =>
      match scanBacktick rest with
      | some (code, r') =>
        let r := wfF f r' ctr b i h
        (Item.codeSpan code.asString :: r.1, r.2)
      | none =>
        let r := wfF f rest ctr b i h
        (Item.str (String.singleton c) :: r.1, r.2)
    | .sidenote =>
      match find_closing_bracket 1 (rest.drop 1) with
      | some (content, r') =>
        let id := ctr + 1
        let ri := wfF f content id false false false
        let r := wfF f r' ri.2 b i h
        (Item.snLabel id :: Item.snInput id :: Item.openT .spanSide ::
          (ri.1 ++ Item.closeT .spanSide :: r.1), r.2)
      | none =>
        let r := wfF f rest ctr b i h
        (Item.str (String.singleton c) :: r.1, r.2)
    | .marginNote =>
      match find_closing_bracket 1 (rest.drop 2) with
      | some (content, r') =>
        let id := ctr + 1
        let ri := wfF f content id false false false
        let r := wfF f r' ri.2 b i h
        (Item.mnLabel id :: Item.mnInput id :: Item.openT .spanMargin ::
          (ri.1 ++ Item.closeT .spanMargin :: r.1), r.2)
      | none =>
        let r := wfF f rest ctr b i h
        (Item.str (String.singleton c) :: r.1, r.2)
    | .fnone =>
      let r := wfF f rest ctr b i h
      (Item.str (String.singleton c) :: r.1, r.2)

/-- `write_formatted_content` entered with arbitrary toggle state (the locals
`in_bold`, `in_italic`, `in_highlight` of one call). -/
def write_formatted_content_from (text : List Char) (ctr : Nat) (b i h : Bool) :
    List Item × Nat :=
  wfF text.length text ctr b i h

/-- `write_formatted_content(fout, text, len, state)` as called by the block
parser: locals start false, the counter is `state->sidenote_id`. -/
def write_formatted_content (text : List Char) (ctr : Nat) : List Item × Nat :=
  write_formatted_content_from text ctr false false false

/-! ## Block parser (main.c:695-878) -/

/-- `BUFFER_SIZE` (main.c:720). -/
def BUFFER_SIZE : Nat := 8192

/-- The loop of `collect_paragraph` (main.c:289-333) with explicit fuel:
`acc` is the scratch buffer contents (`out_len = acc.length`), `first` is
`first_line`.  Stops before blank or special lines; joins lines with one
space (when room remains); copies each line clamped to the remaining buffer
space; advances past the line and its newline. -/
def collect_paragraph_go : Nat → List Char → List Char → Bool → List Char × List Char
  | 0, cursor, acc, _ => (acc, cursor)
  | _ + 1, [], acc, _ => (acc, [])
  | f + 1, cursor@(_ :: _), acc, first =>
    let line := cursor.takeWhile fun c => c ≠ '\n'
    if line.length = 0 ∨ is_blank_line line ∨ is_code_fence line ∨
        get_heading_level line ≠ 0 ∨ is_unordered_list_item line ∨
        is_ordered_list_item line then
      (acc, cursor)
    else
      let acc1 := if first = false ∧ acc.length < BUFFER_SIZE - 1 then acc ++ [' '] else acc
      let copy :=
        if acc1.length + line.length < BUFFER_SIZE - 1 then line.length
        else BUFFER_SIZE - 1 - acc1.length
      collect_paragraph_go f (nextCursor cursor) (acc1 ++ line.take copy) false

/-- `collect_paragraph(&cursor, buffer, BUFFER_SIZE)`: collected text and the
advanced cursor. -/
def collect_paragraph (cursor : List Char) : List Char × List Char :=
  collect_paragraph_go cursor.length cursor [] true

/-- The loop of `collect_code_block` (main.c:337-365) with explicit fuel:
copy lines verbatim (clamped to the buffer), re-append the newline when room
remains, stop after a closing fence line. -/
def collect_code_block_go : Nat → List Char → List Char → List Char × List Char
  | 0, cursor, acc => (acc, cursor)
  | _ + 1, [], acc => (acc, [])
  | f + 1, cursor@(_ :: _), acc =>
    let line := cursor.takeWhile fun c => c ≠ '\n'
    if is_code_fence line then (acc, nextCursor cursor)
    else
      let copy :=
        if acc.length + line.length < BUFFER_SIZE - 1 then line.length
        else BUFFER_SIZE - 1 - acc.length
      let acc1 := acc ++ line.take copy
      let rest := cursor.drop line.length
      if rest.head? = some '\n' then
        collect_code_block_go f rest.tail
          (if acc1.length < BUFFER_SIZE - 1 then acc1 ++ ['\n'] else acc1)
      else collect_code_block_go f rest acc1

/-- `collect_code_block(&cursor, buffer, BUFFER_SIZE)` including the final
trailing-newline trim (main.c:368-370). -/
def collect_code_block (cursor : List Char) : List Char × List Char :=
  let r := collect_code_block_go cursor.length cursor []
  (if r.1.getLast? = some '\n' then r.1.dropLast else r.1, r.2)

/-- `BlockType` (main.c:502). -/
inductive BlockType where
  | none
  | code
  | unordered_list
  | ordered_list
deriving DecidableEq, Repr

/-- `ParseState` (main.c:509). -/
structure ParseState where
  in_section : Bool
  in_paragraph : Bool
  block : BlockType
  sidenote_id : Nat
deriving DecidableEq, Repr

/-- `close_paragraph` (main.c:722). -/
def close_paragraph (st : ParseState) : List Item × ParseState :=
  if st.in_paragraph then ([Item.closeT .p], { st with in_paragraph := false })
  else ([], st)

/-- `close_list` (main.c:729). -/
def close_list (st : ParseState) : List Item × ParseState :=
  if st.block = BlockType.unordered_list then ([Item.closeT .ul], { st with block := .none })
  else if st.block = BlockType.ordered_list then ([Item.closeT .ol], { st with block := .none })
  else ([], st)

/-- `close_section` (main.c:739): close paragraph, close list, then the
section tag. -/
def close_section (st : ParseState) : List Item × ParseState :=
  let r1 := close_paragraph st
  let r2 := close_list r1.2
  if r2.2.in_section then (r1.1 ++ r2.1 ++ [Item.closeT .sec], { r2.2 with in_section := false })
  else (r1.1 ++ r2.1, r2.2)

/-- One iteration of the `while (*cursor)` body loop of `build_page`
(main.c:770-870): classify the current line and dispatch.  Returns the
emitted items, the updated state, and the advanced cursor. -/
def parseStep (cursor : List Char) (st : ParseState) : List Item × ParseState × List Char :=
  let line := cursor.takeWhile fun c => c ≠ '\n'
  if line.length = 0 ∨ is_blank_line line then
    let r1 := close_paragraph st
    let r2 := close_list r1.2
    (r1.1 ++ r2.1, r2.2, nextCursor cursor)
  else if is_code_fence line then
    let r1 := close_paragraph st
    let r2 := close_list r1.2
    let cb := collect_code_block (nextCursor cursor)
    (r1.1 ++ r2.1 ++
        [Item.openT .preCode, Item.str (write_html_escaped cb.1), Item.closeT .preCode],
      r2.2, cb.2)
  else if get_heading_level line ≠ 0 then
    let L := get_heading_level line
    let r1 := close_paragraph st
    let r2 := close_list r1.2
    let r3 : List Item × ParseState :=
      if L = 2 then
        let rc := close_section r2.2
        (rc.1 ++ [Item.openT .sec], { rc.2 with in_section := true })
      else ([], r2.2)
    let ri := write_formatted_content (line.drop (L + 1)) r3.2.sidenote_id
    (r1.1 ++ r2.1 ++ r3.1 ++ Item.openT (.h L) :: (ri.1 ++ [Item.closeT (.h L)]),
      { r3.2 with sidenote_id := ri.2 }, nextCursor cursor)
  else if is_unordered_list_item line then
    let r1 := close_paragraph st
    let r2 : List Item × ParseState :=
      if r1.2.block ≠ BlockType.unordered_list then
        let rc := close_list r1.2
        (rc.1 ++ [Item.openT .ul], { rc.2 with block := .unordered_list })
      else ([], r1.2)
    let ri := write_formatted_content (line.drop (get_list_item_offset line)) r2.2.sidenote_id
    (r1.1 ++ r2.1 ++ Item.openT .li :: (ri.1 ++ [Item.closeT .li]),
      { r2.2 with sidenote_id := ri.2 }, nextCursor cursor)
  else if is_ordered_list_item line then
    let r1 := close_paragraph st
    let r2 : List Item × ParseState :=
      if r1.2.block ≠ BlockType.ordered_list then
        let rc := close_list r1.2
        (rc.1 ++ [Item.openT .ol], { rc.2 with block := .ordered_list })
      else ([], r1.2)
    let ri := write_formatted_content (line.drop (get_list_item_offset line)) r2.2.sidenote_id
    (r1.1 ++ r2.1 ++ Item.openT .li :: (ri.1 ++ [Item.closeT .li]),
      { r2.2 with sidenote_id := ri.2 }, nextCursor cursor)
  else
    let r2 := close_list st
    let cp := collect_paragraph cursor
    if cp.1.length ≠ 0 then
      let ri := write_formatted_content cp.1 r2.2.sidenote_id
      (r2.1 ++ Item.openT .p :: (ri.1 ++ [Item.closeT .p]),
        { r2.2 with sidenote_id := ri.2 }, cp.2)
    else (r2.1, r2.2, cp.2)

/-- The `while (*cursor)` loop of `build_page` with explicit fuel (each
iteration consumes at least one character, see `parseStep_cursor_lt`, so fuel
`cursor.length` is always sufficient, see `parseLoopF_congr`). -/
def parseLoopF : Nat → List Char → ParseState → List Item × ParseState
  | 0, _, st => ([], st)
  | f + 1, cursor, st =>
    if cursor.isEmpty then ([], st)
    else
      let r := parseStep cursor st
      let r2 := parseLoopF f r.2.2 r.2.1
      (r.1 ++ r2.1, r2.2)

/-- The body-parsing part of `build_page`: the loop from a zeroed
`ParseState` (main.c:766) followed by the final `close_section`
(main.c:873). -/
def parse_body (body : List Char) : List Item × ParseState :=
  let r := parseLoopF body.length body ⟨false, false, .none, 0⟩
  let rc := close_section r.2
  (r.1 ++ rc.1, rc.2)

/-! ## Document assembler (main.c:675-693, 748-763, 875-877) -/

/-- `html_write_head` (main.c:675): the fixed head shell with the title and
the stylesheet bytes inlined.  The stylesheet (`styles.h`, generated data not
present under src/) is received as an opaque byte slice `css`. -/
def html_write_head (title css : String) : List Item :=
  [Item.str "<!DOCTYPE html>\n",
   Item.str "<html lang=\"en\">\n",
   Item.str "<head>\n",
   Item.str "  <meta charset=\"utf-8\">\n",
   Item.str "  <meta name=\"viewport\" content=\"width=device-width, initial-scale=1\">\n",
   Item.str "  <link rel=\"icon\" type=\"image/svg+xml\" href=\"/favicon.svg\" />\n",
   Item.str ("  <title>" ++ title ++ "</title>\n"),
   Item.str ("  <style>\n" ++ css ++ "\n</style>\n"),
   Item.str "</head>\n"]

/-- `build_page` (main.c:748-878).  Returns `none` when `format_date`'s
assertion aborts the process; otherwise the emitted items together with
whether the invalid-date warning was logged (main.c:750-753: on a reported
failure the warning is printed and `formatted_date` becomes the empty
string, so the subtitle element is emitted with empty content). -/
def build_page (title css : String) (date body : List Char) :
    Option (List Item × Bool) :=
  let fd? : Option (String × Bool) :=
    if date = [] then some ("", false)
    else
      match format_date_full date with
      | .ok s => some (s, false)
      | .fail => some ("", true)
      | .abort => none
  match fd? with
  | none => none
  | some (fd, warned) =>
    let pre := html_write_head title css ++
      [Item.str "<body>\n", Item.str "<article>\n",
       Item.str ("<h1>" ++ title ++ "</h1>\n")] ++
      (if date ≠ [] then [Item.str ("<p class=\"subtitle\">" ++ fd ++ "</p>\n")] else [])
    let rb := parse_body body
    some (pre ++ rb.1 ++
      [Item.str "</article>\n", Item.str "</body>\n", Item.str "</html>\n"], warned)

/-! ## Vocabulary for the claims -/

/-- The tag kinds named by the balance claim: section, p, ul, ol, li, pre,
code, h1..h6, strong, em, mark, label, span. -/
inductive TagKind where
  | sectionK
  | pK
  | ulK
  | olK
  | liK
  | preK
  | codeK
  | hK (n : Nat)
  | strongK
  | emK
  | markK
  | labelK
  | spanK
deriving DecidableEq, Repr

/-- How many tags of kind `k` an open (equivalently, close) emission of
structural tag `t` prints: `preCode` prints one pre and one code tag, both
span classes print a span tag, `h n` prints an `hn` tag. -/
def tagWeight (k : TagKind) (t : Tag) : Nat :=
  match t, k with
  | .sec, .sectionK => 1
  | .p, .pK => 1
  | .ul, .ulK => 1
  | .ol, .olK => 1
  | .li, .liK => 1
  | .preCode, .preK => 1
  | .preCode, .codeK => 1
  | .h n, .hK m => if n = m then 1 else 0
  | .strong, .strongK => 1
  | .em, .emK => 1
  | .mark, .markK => 1
  | .spanSide, .spanK => 1
  | .spanMargin, .spanK => 1
  | _, _ => 0

/-- Opening tags of kind `k` printed by one output call: `codeSpan` prints
one opening (and closing) code tag, a note label prints one opening (and
closing) label tag.  User bytes passed through verbatim (`str`) are not
markup emitted by the renderer. -/
def itemOpensK (k : TagKind) : Item → Nat
  | .openT t => tagWeight k t
  | .codeSpan _ => if k = .codeK then 1 else 0
  | .snLabel _ => if k = .labelK then 1 else 0
  | .mnLabel _ => if k = .labelK then 1 else 0
  | _ => 0

/-- Closing tags of kind `k` printed by one output call. -/
def itemClosesK (k : TagKind) : Item → Nat
  | .closeT t => tagWeight k t
  | .codeSpan _ => if k = .codeK then 1 else 0
  | .snLabel _ => if k = .labelK then 1 else 0
  | .mnLabel _ => if k = .labelK then 1 else 0
  | _ => 0

/-- Total opening tags of kind `k` in a run of output. -/
def opensK (k : TagKind) (l : List Item) : Nat := (l.map (itemOpensK k)).sum

/-- Total closing tags of kind `k` in a run of output. -/
def closesK (k : TagKind) (l : List Item) : Nat := (l.map (itemClosesK k)).sum

/-- Tags of kind `k` currently open according to the parse state. -/
def netK (k : TagKind) (st : ParseState) : Nat :=
  match k with
  | .sectionK => if st.in_section then 1 else 0
  | .pK => if st.in_paragraph then 1 else 0
  | .ulK => if st.block = BlockType.unordered_list then 1 else 0
  | .olK => if st.block = BlockType.ordered_list then 1 else 0
  | _ => 0

/-- Inline toggles of kind `k` currently open. -/
def pendK (k : TagKind) (b i h : Bool) : Nat :=
  match k with
  | .strongK => if b then 1 else 0
  | .emK => if i then 1 else 0
  | .markK => if h then 1 else 0
  | _ => 0

/-- A run of output is balanced between two parse states: for every tag
kind, tags open before plus tags opened equal tags closed plus tags open
after. -/
def Balanced (out : List Item) (st st' : ParseState) : Prop :=
  ∀ k, opensK k out + netK k st = closesK k out + netK k st'

/-- The open (`true`) / close (`false`) events for structural tag `t` in a
run of output, in emission order. -/
def tagEvents (t : Tag) (l : List Item) : List Bool :=
  l.filterMap fun it =>
    match it with
    | .openT t' => if t' = t then some true else none
    | .closeT t' => if t' = t then some false else none
    | _ => none

/-- `Alt b evs`: starting with a toggle that is currently open iff `b`, the
event list strictly alternates (each event flips the state) and ends with
the toggle closed. -/
inductive Alt : Bool → List Bool → Prop where
  | nil : Alt false []
  | cons (b : Bool) {l : List Bool} : Alt (!b) l → Alt b ((!b) :: l)

/-- The note ids printed in `<label for="sn-N">` / `<label for="mn-N">`
markup, in emission order (one label per note). -/
def noteIds (l : List Item) : List Nat :=
  l.filterMap fun it =>
    match it with
    | .snLabel id => some id
    | .mnLabel id => some id
    | _ => none

/-- The note ids printed in the checkbox `<input id="sn-N">` / `"mn-N"`
markup, in emission order. -/
def noteInputIds (l : List Item) : List Nat :=
  l.filterMap fun it =>
    match it with
    | .snInput id => some id
    | .mnInput id => some id
    | _ => none

/-- Items the inline renderer can emit: verbatim bytes, code spans, note
markup, and open/close tags of the inline kinds only. -/
def inline_item : Item → Prop
  | .openT t => t = .strong ∨ t = .em ∨ t = .mark ∨ t = .spanSide ∨ t = .spanMargin
  | .closeT t => t = .strong ∨ t = .em ∨ t = .mark ∨ t = .spanSide ∨ t = .spanMargin
  | _ => True

/-- `needle` occurs contiguously in `hay`. -/
def containsSub (needle hay : List Char) : Bool :=
  match hay with
  | [] => needle.isEmpty
  | _ :: t => needle.isPrefixOf hay || containsSub needle t

/-- The claim's phrase "date string of the shape YYYY-MM-DD": exactly ten
characters, digits in the year/month/day positions, dashes at positions 4
and 7.  (Stated from the claim's words, for comparison with what the code
accepts.) -/
def specShapeYYYYMMDD (s : List Char) : Bool :=
  match s with
  | [y1, y2, y3, y4, h1, m1, m2, h2, d1, d2] =>
    [y1, y2, y3, y4, m1, m2, d1, d2].all isdigit && h1 == '-' && h2 == '-'
  | _ => false

/-- The month field value of a shape-YYYY-MM-DD string. -/
def specMonthVal (s : List Char) : Nat := digitsVal ((s.drop 5).take 2)

/-- Canonical slug text from toggle state `prev_was_dash`: every character is
either a lowercase alphanumeric (fixed by `tolower`), or a `-` that may only
follow an alphanumeric (`prev_was_dash = false`).  The `slugify` scan loop
emits exactly such text and copies such text unchanged. -/
def SlugOK : Bool → List Char → Prop
  | _, [] => True
  | prev, c :: t =>
    (isalnum c = true ∧ tolower c = c ∧ SlugOK false t) ∨
      (c = '-' ∧ prev = false ∧ SlugOK true t)

theorem closers_noteIds (b i h : Bool) : noteIds (closers b i h) = [] := by
  cases b <;> cases i <;> cases h <;> simp [closers, noteIds]

theorem closers_noteInputIds (b i h : Bool) : noteInputIds (closers b i h) = [] := by
  cases b <;> cases i <;> cases h <;> simp [closers, noteInputIds]

theorem range'_glue (a m2 m3 : Nat) (h1 : a + 1 ≤ m2) (h2 : m2 ≤ m3) :
    (a + 1) :: (List.range' (a + 2) (m2 - (a + 1)) ++ List.range' (m2 + 1) (m3 - m2))
      = List.range' (a + 1) (m3 - a) := by
  have e2 : m2 + 1 = (a + 2) + (m2 - (a + 1)) := by omega
  rw [e2, List.range'_append_1]
  have e3 : m3 - a = ((m2 - (a + 1)) + (m3 - m2)) + 1 := by omega
  rw [e3, List.range'_succ]
  have e4 : m3 - m2 + (m2 - (a + 1)) = m2 - (a + 1) + (m3 - m2) := by omega
  rw [e4]

theorem wfF_ids (f : Nat) : ∀ (text : List Char) (ctr : Nat) (b i h : Bool),
    ctr ≤ (wfF f text ctr b i h).2 ∧
    noteIds (wfF f text ctr b i h).1 =
      List.range' (ctr + 1) ((wfF f text ctr b i h).2 - ctr) ∧
    noteInputIds (wfF f text ctr b i h).1 =
      List.range' (ctr + 1) ((wfF f text ctr b i h).2 - ctr) := by
  induction f with
  | zero => intro text ctr b i h; simp [wfF, closers_noteIds, closers_noteInputIds]
  | succ f ih =>
    intro text ctr b i h
    cases text with
    | nil => simp [wfF, closers_noteIds, closers_noteInputIds]
    | cons c rest =>
      cases hf : get_format_type (c :: rest) with
      | bold =>
        simp only [wfF, hf]
        have := ih (rest.drop 1) ctr (!b) i h
        cases b <;> simpa [noteIds, noteInputIds] using this
      | italic =>
        simp only [wfF, hf]
        have := ih (rest.drop 1) ctr b (!i) h
        cases i <;> simpa [noteIds, noteInputIds] using this
      | highlight =>
        simp only [wfF, hf]
        have := ih (rest.drop 1) ctr b i (!h)
        cases h <;> simpa [noteIds, noteInputIds] using this
      | inlineCode =>
        cases hs : scanBacktick rest with
        | none =>
          simp only [wfF, hf, hs]
          simpa [noteIds, noteInputIds] using ih rest ctr b i h
        | some p =>
          simp only [wfF, hf, hs]
          simpa [noteIds, noteInputIds] using ih p.2 ctr b i h
      | sidenote =>
        cases hs : find_closing_bracket 1 (rest.drop 1) with
        | none =>
          simp only [wfF, hf, hs]
          simpa [noteIds, noteInputIds] using ih rest ctr b i h
        | some p =>
          simp only [wfF, hf, hs]
          obtain ⟨ha1, ha2, ha3⟩ := ih p.1 (ctr + 1) false false false
          obtain ⟨hb1, hb2, hb3⟩ :=
            ih p.2 (wfF f p.1 (ctr + 1) false false false).2 b i h
          refine ⟨by omega, ?_, ?_⟩
          · simp only [noteIds, List.filterMap_cons, List.filterMap_append]
            simp only [noteIds] at ha2 hb2
            rw [ha2, hb2]
            exact range'_glue ctr _ _ (by omega) (by omega)
          · simp only [noteInputIds, List.filterMap_cons, List.filterMap_append]
            simp only [noteInputIds] at ha3 hb3
            rw [ha3, hb3]
            exact range'_glue ctr _ _ (by omega) (by omega)
      | marginNote =>
        cases hs : find_closing_bracket 1 (rest.drop 2) with
        | none =>
          simp only [wfF, hf, hs]
          simpa [noteIds, noteInputIds] using ih rest ctr b i h
        | some p =>
          simp only [wfF, hf, hs]
          obtain ⟨ha1, ha2, ha3⟩ := ih p.1 (ctr + 1) false false false
          obtain ⟨hb1, hb2, hb3⟩ :=
            ih p.2 (wfF f p.1 (ctr + 1) false false false).2 b i h
          refine ⟨by omega, ?_, ?_⟩
          · simp only [noteIds, List.filterMap_cons, List.filterMap_append]
            simp only [noteIds] at ha2 hb2
            rw [ha2, hb2]
            exact range'_glue ctr _ _ (by omega) (by omega)
          · simp only [noteInputIds, List.filterMap_cons, List.filterMap_append]
            simp only [noteInputIds] at ha3 hb3
            rw [ha3, hb3]
            exact range'_glue ctr _ _ (by omega) (by omega)
      | fnone =>
        simp only [wfF, hf]
        simpa [noteIds, noteInputIds] using ih rest ctr b i h

theorem scanBacktick_eq : ∀ {l : List Char} {p : List Char × List Char},
    scanBacktick l = some p → l = p.1 ++ backtick :: p.2 ∧ backtick ∉ p.1 := by
  intro l
  induction l with
  | nil => intro p hp; simp [scanBacktick] at hp
  | cons c t ih =>
    intro p hp
    by_cases hc : c = backtick
    · simp [scanBacktick, hc] at hp
      simp [← hp, hc]
    · simp only [scanBacktick, if_neg hc, Option.map_eq_some'] at hp
      obtain ⟨q, hq1, hq2⟩ := hp
      obtain ⟨h1, h2⟩ := ih hq1
      subst hq2
      refine ⟨by simp [h1], ?_⟩
      simp only [List.mem_cons, not_or]
      exact ⟨fun hh => hc hh.symm, h2⟩

theorem scanBacktick_some_len {l : List Char} {p : List Char × List Char}
    (hp : scanBacktick l = some p) : p.1.length + p.2.length + 1 = l.length := by
  have := (scanBacktick_eq hp).1
  subst this
  simp
  omega

theorem find_closing_bracket_some_len : ∀ {l : List Char} {d : Nat} {p : List Char × List Char},
    find_closing_bracket d l = some p → p.1.length + p.2.length + 1 = l.length := by
  intro l
  induction l with
  | nil => intro d p hp; simp [find_closing_bracket] at hp
  | cons c t ih =>
    intro d p hp
    simp only [find_closing_bracket] at hp
    split_ifs at hp with h1 h2 h3
    · simp only [Option.map_eq_some'] at hp
      obtain ⟨q, hq, hpq⟩ := hp
      have := ih hq
      subst hpq
      simp
      omega
    · simp only [Option.some.injEq] at hp
      subst hp
      simp
    · simp only [Option.map_eq_some'] at hp
      obtain ⟨q, hq, hpq⟩ := hp
      have := ih hq
      subst hpq
      simp
      omega
    · simp only [Option.map_eq_some'] at hp
      obtain ⟨q, hq, hpq⟩ := hp
      have := ih hq
      subst hpq
      simp
      omega

theorem wfF_nil (f : Nat) (ctr : Nat) (b i h : Bool) :
    wfF f [] ctr b i h = (closers b i h, ctr) := by
  cases f <;> rfl

theorem wfF_congr : ∀ (f1 : Nat) (f2 : Nat) (text : List Char), text.length ≤ f1 →
    text.length ≤ f2 → ∀ ctr b i h, wfF f1 text ctr b i h = wfF f2 text ctr b i h := by
  intro f1
  induction f1 with
  | zero =>
    intro f2 text h1 _ ctr b i h
    have : text = [] := List.length_eq_zero.mp (Nat.le_zero.mp h1)
    subst this
    rw [wfF_nil, wfF_nil]
  | succ f1 ih =>
    intro f2 text h1 h2 ctr b i h
    cases text with
    | nil => rw [wfF_nil, wfF_nil]
    | cons c rest =>
      cases f2 with
      | zero => simp at h2
      | succ g =>
        have hr1 : rest.length ≤ f1 := by simp at h1; omega
        have hr2 : rest.length ≤ g := by simp at h2; omega
        cases hf : get_format_type (c :: rest) with
        | bold =>
          simp only [wfF, hf]
          rw [ih g (rest.drop 1) (by simp; omega) (by simp; omega)]
        | italic =>
          simp only [wfF, hf]
          rw [ih g (rest.drop 1) (by simp; omega) (by simp; omega)]
        | highlight =>
          simp only [wfF, hf]
          rw [ih g (rest.drop 1) (by simp; omega) (by simp; omega)]
        | inlineCode =>
          cases hs : scanBacktick rest with
          | none =>
            simp only [wfF, hf, hs]
            rw [ih g rest hr1 hr2]
          | some p =>
            have hl := scanBacktick_some_len hs
            simp only [wfF, hf, hs]
            rw [ih g p.2 (by omega) (by omega)]
        | sidenote =>
          cases hs : find_closing_bracket 1 (rest.drop 1) with
          | none =>
            simp only [wfF, hf, hs]
            rw [ih g rest hr1 hr2]
          | some p =>
            have hl := find_closing_bracket_some_len hs
            have hd : (rest.drop 1).length ≤ rest.length := by simp
            simp only [wfF, hf, hs]
            rw [ih g p.1 (by omega) (by omega), ih g p.2 (by omega) (by omega)]
        | marginNote =>
          cases hs : find_closing_bracket 1 (rest.drop 2) with
          | none =>
            simp only [wfF, hf, hs]
            rw [ih g rest hr1 hr2]
          | some p =>
            have hl := find_closing_bracket_some_len hs
            have hd : (rest.drop 2).length ≤ rest.length := by simp
            simp only [wfF, hf, hs]
            rw [ih g p.1 (by omega) (by omega), ih g p.2 (by omega) (by omega)]
        | fnone =>
          simp only [wfF, hf]
          rw [ih g rest hr1 hr2]

theorem closers_inline (b i h : Bool) : ∀ it ∈ closers b i h, inline_item it := by
  cases b <;> cases i <;> cases h <;> simp [closers, inline_item]

theorem wfF_inline (f : Nat) : ∀ (text : List Char) (ctr : Nat) (b i h : Bool),
    ∀ it ∈ (wfF f text ctr b i h).1, inline_item it := by
  induction f with
  | zero => intro text ctr b i h; simp only [wfF]; exact closers_inline b i h
  | succ f ih =>
    intro text ctr b i h
    cases text with
    | nil => rw [wfF_nil]; exact closers_inline b i h
    | cons c rest =>
      cases hf : get_format_type (c :: rest) with
      | bold =>
        simp only [wfF, hf]
        intro it hit
        rcases List.mem_cons.mp hit with hit | hit
        · subst hit; cases b <;> simp [inline_item]
        · exact ih _ _ _ _ _ it hit
      | italic =>
        simp only [wfF, hf]
        intro it hit
        rcases List.mem_cons.mp hit with hit | hit
        · subst hit; cases i <;> simp [inline_item]
        · exact ih _ _ _ _ _ it hit
      | highlight =>
        simp only [wfF, hf]
        intro it hit
        rcases List.mem_cons.mp hit with hit | hit
        · subst hit; cases h <;> simp [inline_item]
        · exact ih _ _ _ _ _ it hit
      | inlineCode =>
        cases hs : scanBacktick rest with
        | none =>
          simp only [wfF, hf, hs]
          intro it hit
          rcases List.mem_cons.mp hit with hit | hit
          · subst hit; simp [inline_item]
          · exact ih _ _ _ _ _ it hit
        | some p =>
          simp only [wfF, hf, hs]
          intro it hit
          rcases List.mem_cons.mp hit with hit | hit
          · subst hit; simp [inline_item]
          · exact ih _ _ _ _ _ it hit
      | sidenote =>
        cases hs : find_closing_bracket 1 (rest.drop 1) with
        | none =>
          simp only [wfF, hf, hs]
          intro it hit
          rcases List.mem_cons.mp hit with hit | hit
          · subst hit; simp [inline_item]
          · exact ih _ _ _ _ _ it hit
        | some p =>
          simp only [wfF, hf, hs]
          intro it hit
          simp only [List.mem_cons, List.mem_append] at hit
          rcases hit with hit | hit | hit | hit | hit | hit
          · subst hit; simp [inline_item]
          · subst hit; simp [inline_item]
          · subst hit; simp [inline_item]
          · exact ih _ _ _ _ _ it hit
          · subst hit; simp [inline_item]
          · exact ih _ _ _ _ _ it hit
      | marginNote =>
        cases hs : find_closing_bracket 1 (rest.drop 2) with
        | none =>
          simp only [wfF, hf, hs]
          intro it hit
          rcases List.mem_cons.mp hit with hit | hit
          · subst hit; simp [inline_item]
          · exact ih _ _ _ _ _ it hit
        | some p =>
          simp only [wfF, hf, hs]
          intro it hit
          simp only [List.mem_cons, List.mem_append] at hit
          rcases hit with hit | hit | hit | hit | hit | hit
          · subst hit; simp [inline_item]
          · subst hit; simp [inline_item]
          · subst hit; simp [inline_item]
          · exact ih _ _ _ _ _ it hit
          · subst hit; simp [inline_item]
          · exact ih _ _ _ _ _ it hit
      | fnone =>
        simp only [wfF, hf]
        intro it hit
        rcases List.mem_cons.mp hit with hit | hit
        · subst hit; simp [inline_item]
        · exact ih _ _ _ _ _ it hit

theorem get_format_type_sidenote_head {t : List Char} :
    get_format_type t = .sidenote → t.head? = some '^' := by
  cases t with
  | nil => simp [get_format_type]
  | cons c1 r =>
    cases r with
    | nil => simp [get_format_type]
    | cons c2 tt =>
      simp only [get_format_type]
      split_ifs <;> simp_all

theorem get_format_type_margin_head {t : List Char} :
    get_format_type t = .marginNote → t.head? = some '^' := by
  cases t with
  | nil => simp [get_format_type]
  | cons c1 r =>
    cases r with
    | nil => simp [get_format_type]
    | cons c2 tt =>
      simp only [get_format_type]
      split_ifs <;> simp_all

theorem closers_alt (b i h : Bool) :
    Alt b (tagEvents Tag.strong (closers b i h)) ∧
    Alt i (tagEvents Tag.em (closers b i h)) ∧
    Alt h (tagEvents Tag.mark (closers b i h)) := by
  cases b <;> cases i <;> cases h <;>
    refine ⟨?_, ?_, ?_⟩ <;>
    simp [closers, tagEvents] <;>
    first
      | exact Alt.nil
      | exact Alt.cons true Alt.nil

theorem wfF_alt (f : Nat) : ∀ (text : List Char) (ctr : Nat) (b i h : Bool),
    ('^' : Char) ∉ text →
    Alt b (tagEvents Tag.strong (wfF f text ctr b i h).1) ∧
    Alt i (tagEvents Tag.em (wfF f text ctr b i h).1) ∧
    Alt h (tagEvents Tag.mark (wfF f text ctr b i h).1) := by
  induction f with
  | zero => intro text ctr b i h _; simp only [wfF]; exact closers_alt b i h
  | succ f ih =>
    intro text ctr b i h hcar
    cases text with
    | nil => rw [wfF_nil]; exact closers_alt b i h
    | cons c rest =>
      have hcar_rest : ('^' : Char) ∉ rest := fun hx => hcar (List.mem_cons_of_mem c hx)
      have hcar_drop1 : ('^' : Char) ∉ rest.drop 1 :=
        fun hx => hcar_rest (List.drop_subset 1 rest hx)
      cases hf : get_format_type (c :: rest) with
      | bold =>
        simp only [wfF, hf]
        obtain ⟨ih1, ih2, ih3⟩ := ih (rest.drop 1) ctr (!b) i h hcar_drop1
        cases b <;>
          exact ⟨by simpa [tagEvents] using Alt.cons _ (by simpa using ih1),
            by simpa [tagEvents] using ih2, by simpa [tagEvents] using ih3⟩
      | italic =>
        simp only [wfF, hf]
        obtain ⟨ih1, ih2, ih3⟩ := ih (rest.drop 1) ctr b (!i) h hcar_drop1
        cases i <;>
          exact ⟨by simpa [tagEvents] using ih1,
            by simpa [tagEvents] using Alt.cons _ (by simpa using ih2),
            by simpa [tagEvents] using ih3⟩
      | highlight =>
        simp only [wfF, hf]
        obtain ⟨ih1, ih2, ih3⟩ := ih (rest.drop 1) ctr b i (!h) hcar_drop1
        cases h <;>
          exact ⟨by simpa [tagEvents] using ih1, by simpa [tagEvents] using ih2,
            by simpa [tagEvents] using Alt.cons _ (by simpa using ih3)⟩
      | inlineCode =>
        cases hs : scanBacktick rest with
        | none =>
          simp only [wfF, hf, hs]
          obtain ⟨ih1, ih2, ih3⟩ := ih rest ctr b i h hcar_rest
          exact ⟨by simpa [tagEvents] using ih1, by simpa [tagEvents] using ih2,
            by simpa [tagEvents] using ih3⟩
        | some p =>
          have hp2 : ('^' : Char) ∉ p.2 := by
            intro hx
            exact hcar_rest ((scanBacktick_eq hs).1 ▸ (List.mem_append.mpr
              (Or.inr (List.mem_cons_of_mem _ hx))))
          simp only [wfF, hf, hs]
          obtain ⟨ih1, ih2, ih3⟩ := ih p.2 ctr b i h hp2
          exact ⟨by simpa [tagEvents] using ih1, by simpa [tagEvents] using ih2,
            by simpa [tagEvents] using ih3⟩
      | sidenote =>
        have hc : c = '^' := by simpa using get_format_type_sidenote_head hf
        subst hc
        exact absurd (List.mem_cons_self _ _) hcar
      | marginNote =>
        have hc : c = '^' := by simpa using get_format_type_margin_head hf
        subst hc
        exact absurd (List.mem_cons_self _ _) hcar
      | fnone =>
        simp only [wfF, hf]
        obtain ⟨ih1, ih2, ih3⟩ := ih rest ctr b i h hcar_rest
        exact ⟨by simpa [tagEvents] using ih1, by simpa [tagEvents] using ih2,
          by simpa [tagEvents] using ih3⟩

theorem opensK_cons (k : TagKind) (it : Item) (l : List Item) :
    opensK k (it :: l) = itemOpensK k it + opensK k l := by simp [opensK]

theorem opensK_append (k : TagKind) (l1 l2 : List Item) :
    opensK k (l1 ++ l2) = opensK k l1 + opensK k l2 := by simp [opensK]

theorem closesK_cons (k : TagKind) (it : Item) (l : List Item) :
    closesK k (it :: l) = itemClosesK k it + closesK k l := by simp [closesK]

theorem closesK_append (k : TagKind) (l1 l2 : List Item) :
    closesK k (l1 ++ l2) = closesK k l1 + closesK k l2 := by simp [closesK]

theorem closers_closesK (k : TagKind) (b i h : Bool) :
    closesK k (closers b i h) = pendK k b i h := by
  cases b <;> cases i <;> cases h <;> cases k <;>
    simp [closers, closesK, itemClosesK, tagWeight, pendK]

theorem closers_opensK (k : TagKind) (b i h : Bool) :
    opensK k (closers b i h) = 0 := by
  cases b <;> cases i <;> cases h <;> cases k <;>
    simp [closers, opensK, itemOpensK, tagWeight]

theorem pendK_false (k : TagKind) : pendK k false false false = 0 := by
  cases k <;> simp [pendK]

theorem wfF_balance (f : Nat) : ∀ (text : List Char) (ctr : Nat) (b i h : Bool) (k : TagKind),
    closesK k (wfF f text ctr b i h).1 = opensK k (wfF f text ctr b i h).1 + pendK k b i h := by
  induction f with
  | zero => intro text ctr b i h k; simp [wfF, closers_closesK, closers_opensK]
  | succ f ih =>
    intro text ctr b i h k
    cases text with
    | nil => simp [wfF, closers_closesK, closers_opensK]
    | cons c rest =>
      cases hf : get_format_type (c :: rest) with
      | bold =>
        simp only [wfF, hf]
        cases b <;>
          simp [opensK_cons, closesK_cons, itemOpensK, itemClosesK, ih] <;>
          cases k <;> simp [tagWeight, pendK] <;> omega
      | italic =>
        simp only [wfF, hf]
        cases i <;>
          simp [opensK_cons, closesK_cons, itemOpensK, itemClosesK, ih] <;>
          cases k <;> simp [tagWeight, pendK] <;> omega
      | highlight =>
        simp only [wfF, hf]
        cases h <;>
          simp [opensK_cons, closesK_cons, itemOpensK, itemClosesK, ih] <;>
          cases k <;> simp [tagWeight, pendK] <;> omega
      | inlineCode =>
        cases hs : scanBacktick rest with
        | none =>
          simp only [wfF, hf, hs]
          simp [opensK_cons, closesK_cons, itemOpensK, itemClosesK, ih]
        | some p =>
          simp only [wfF, hf, hs]
          simp only [opensK_cons, closesK_cons, itemOpensK, itemClosesK, ih]
          split <;> omega
      | sidenote =>
        cases hs : find_closing_bracket 1 (rest.drop 1) with
        | none =>
          simp only [wfF, hf, hs]
          simp [opensK_cons, closesK_cons, itemOpensK, itemClosesK, ih]
        | some p =>
          simp only [wfF, hf, hs]
          simp only [opensK_cons, closesK_cons, opensK_append, closesK_append,
            itemOpensK, itemClosesK, ih, pendK_false]
          cases k <;> simp [tagWeight, pendK] <;> omega
      | marginNote =>
        cases hs : find_closing_bracket 1 (rest.drop 2) with
        | none =>
          simp only [wfF, hf, hs]
          simp [opensK_cons, closesK_cons, itemOpensK, itemClosesK, ih]
        | some p =>
          simp only [wfF, hf, hs]
          simp only [opensK_cons, closesK_cons, opensK_append, closesK_append,
            itemOpensK, itemClosesK, ih, pendK_false]
          cases k <;> simp [tagWeight, pendK] <;> omega
      | fnone =>
        simp only [wfF, hf]
        simp [opensK_cons, closesK_cons, itemOpensK, itemClosesK, ih]

theorem opensK_nil (k : TagKind) : opensK k [] = 0 := rfl

theorem closesK_nil (k : TagKind) : closesK k [] = 0 := rfl

theorem netK_sid (k : TagKind) (st : ParseState) (x : Nat) :
    netK k { st with sidenote_id := x } = netK k st := by
  cases k <;> rfl

theorem Balanced_nil (st : ParseState) : Balanced [] st st := fun _ => rfl

theorem Balanced_comp {o1 o2 : List Item} {st s1 s2 : ParseState} :
    Balanced o1 st s1 → Balanced o2 s1 s2 → Balanced (o1 ++ o2) st s2 := by
  intro h1 h2 k
  have e1 := h1 k
  have e2 := h2 k
  simp only [opensK_append, closesK_append]
  omega

theorem inline_oc (k : TagKind) (text : List Char) (ctr : Nat) :
    opensK k (write_formatted_content text ctr).1 =
      closesK k (write_formatted_content text ctr).1 := by
  have h1 := wfF_balance text.length text ctr false false false k
  have h2 := pendK_false k
  simp only [write_formatted_content, write_formatted_content_from]
  omega

theorem bal_close_paragraph (st : ParseState) :
    Balanced (close_paragraph st).1 st (close_paragraph st).2 := by
  intro k
  simp only [close_paragraph]
  split_ifs with hp <;>
    cases k <;>
      simp [opensK, closesK, itemOpensK, itemClosesK, tagWeight, netK, hp]

theorem bal_close_list (st : ParseState) :
    Balanced (close_list st).1 st (close_list st).2 := by
  intro k
  simp only [close_list]
  split_ifs with hu ho <;>
    cases k <;>
      simp_all [opensK, closesK, itemOpensK, itemClosesK, tagWeight, netK]

theorem close_section_insec (st : ParseState) : (close_section st).2.in_section = false := by
  simp only [close_section]
  split_ifs <;> simp_all

theorem bal_sec_close (st : ParseState) (hs : st.in_section = true) :
    Balanced [Item.closeT Tag.sec] st { st with in_section := false } := by
  intro k
  cases k <;> simp [opensK, closesK, itemOpensK, itemClosesK, tagWeight, netK, hs]

theorem bal_close_section (st : ParseState) :
    Balanced (close_section st).1 st (close_section st).2 := by
  simp only [close_section]
  split_ifs with hs
  · exact Balanced_comp
      (Balanced_comp (bal_close_paragraph st) (bal_close_list _)) (bal_sec_close _ hs)
  · exact Balanced_comp (bal_close_paragraph st) (bal_close_list _)

theorem bal_open_sec (st : ParseState) (hs : st.in_section = false) :
    Balanced [Item.openT Tag.sec] st { st with in_section := true } := by
  intro k
  cases k <;> simp [opensK, closesK, itemOpensK, itemClosesK, tagWeight, netK, hs]

theorem close_list_block (st : ParseState) :
    (close_list st).2.block ≠ BlockType.unordered_list ∧
      (close_list st).2.block ≠ BlockType.ordered_list := by
  obtain ⟨s1, s2, s3, s4⟩ := st
  cases s3 <;> simp [close_list]

theorem bal_open_ul (st : ParseState) (hu : st.block ≠ BlockType.unordered_list)
    (ho : st.block ≠ BlockType.ordered_list) :
    Balanced [Item.openT Tag.ul] st { st with block := BlockType.unordered_list } := by
  intro k
  cases k <;> simp [opensK, closesK, itemOpensK, itemClosesK, tagWeight, netK, hu, ho]

theorem bal_open_ol (st : ParseState) (hu : st.block ≠ BlockType.unordered_list)
    (ho : st.block ≠ BlockType.ordered_list) :
    Balanced [Item.openT Tag.ol] st { st with block := BlockType.ordered_list } := by
  intro k
  cases k <;> simp [opensK, closesK, itemOpensK, itemClosesK, tagWeight, netK, hu, ho]

theorem bal_pre (s : String) (st : ParseState) :
    Balanced [Item.openT Tag.preCode, Item.str s, Item.closeT Tag.preCode] st st := by
  intro k
  cases k <;> simp [opensK, closesK, itemOpensK, itemClosesK, tagWeight]

theorem bal_wrap (t : Tag) (text : List Char) (ctr : Nat) (st : ParseState) (x : Nat) :
    Balanced (Item.openT t :: ((write_formatted_content text ctr).1 ++ [Item.closeT t])) st
      { st with sidenote_id := x } := by
  intro k
  have hin := inline_oc k text ctr
  have hnet := netK_sid k st x
  have e4 : opensK k [Item.closeT t] = 0 := by
    simp [opensK, itemOpensK]
  have e5 : closesK k [Item.closeT t] = tagWeight k t := by
    simp [closesK, itemClosesK]
  have e6 : itemOpensK k (Item.openT t) = tagWeight k t := rfl
  have e7 : itemClosesK k (Item.openT t) = 0 := rfl
  simp only [opensK_cons, closesK_cons, opensK_append, closesK_append, e4, e5, e6, e7, hnet]
  omega

theorem parseStep_bal (cursor : List Char) (st : ParseState) :
    Balanced (parseStep cursor st).1 st (parseStep cursor st).2.1 := by
  simp only [parseStep]
  split_ifs <;> simp only [List.append_nil] <;>
  first
  | exact Balanced_comp (bal_close_paragraph st) (bal_close_list _)
  | exact Balanced_comp
      (Balanced_comp (bal_close_paragraph st) (bal_close_list _)) (bal_pre _ _)
  | exact Balanced_comp
      (Balanced_comp (Balanced_comp (bal_close_paragraph st) (bal_close_list _))
        (Balanced_comp (bal_close_section _) (bal_open_sec _ (close_section_insec _))))
      (bal_wrap _ _ _ _ _)
  | exact Balanced_comp
      (Balanced_comp (bal_close_paragraph st) (bal_close_list _)) (bal_wrap _ _ _ _ _)
  | exact Balanced_comp
      (Balanced_comp (bal_close_paragraph st)
        (Balanced_comp (bal_close_list _)
          (bal_open_ul _ (close_list_block _).1 (close_list_block _).2)))
      (bal_wrap _ _ _ _ _)
  | exact Balanced_comp
      (Balanced_comp (bal_close_paragraph st)
        (Balanced_comp (bal_close_list _)
          (bal_open_ol _ (close_list_block _).1 (close_list_block _).2)))
      (bal_wrap _ _ _ _ _)
  | exact Balanced_comp (bal_close_paragraph st) (bal_wrap _ _ _ _ _)
  | exact Balanced_comp (bal_close_list st) (bal_wrap _ _ _ _ _)
  | exact bal_close_list st

theorem close_paragraph_inpar (st : ParseState) : (close_paragraph st).2.in_paragraph = false := by
  simp only [close_paragraph]
  split_ifs with hp <;> simp_all

theorem close_list_inpar (st : ParseState) : (close_list st).2.in_paragraph = st.in_paragraph := by
  simp only [close_list]
  split_ifs <;> rfl

theorem close_section_inpar (st : ParseState) : (close_section st).2.in_paragraph = false := by
  simp only [close_section]
  split_ifs <;> simp [close_list_inpar, close_paragraph_inpar]

theorem close_section_block (st : ParseState) :
    (close_section st).2.block ≠ BlockType.unordered_list ∧
      (close_section st).2.block ≠ BlockType.ordered_list := by
  simp only [close_section]
  split_ifs <;> simpa using close_list_block (close_paragraph st).2

theorem close_section_net (k : TagKind) (st : ParseState) : netK k (close_section st).2 = 0 := by
  cases k with
  | sectionK => simp [netK, close_section_insec]
  | pK => simp [netK, close_section_inpar]
  | ulK => simp [netK, (close_section_block st).1]
  | olK => simp [netK, (close_section_block st).2]
  | hK n => rfl
  | liK => rfl
  | preK => rfl
  | codeK => rfl
  | strongK => rfl
  | emK => rfl
  | markK => rfl
  | labelK => rfl
  | spanK => rfl

theorem parseLoopF_bal (f : Nat) : ∀ (cursor : List Char) (st : ParseState),
    Balanced (parseLoopF f cursor st).1 st (parseLoopF f cursor st).2 := by
  induction f with
  | zero => intro cursor st; exact Balanced_nil st
  | succ f ih =>
    intro cursor st
    simp only [parseLoopF]
    split_ifs with he
    · exact Balanced_nil st
    · exact Balanced_comp (parseStep_bal cursor st) (ih _ _)

theorem noteIds_append (l1 l2 : List Item) : noteIds (l1 ++ l2) = noteIds l1 ++ noteIds l2 := by
  simp [noteIds]

theorem noteInputIds_append (l1 l2 : List Item) :
    noteInputIds (l1 ++ l2) = noteInputIds l1 ++ noteInputIds l2 := by
  simp [noteInputIds]

theorem noteIds_openT (t : Tag) (l : List Item) : noteIds (Item.openT t :: l) = noteIds l := by
  simp [noteIds]

theorem noteIds_closeT (t : Tag) (l : List Item) : noteIds (Item.closeT t :: l) = noteIds l := by
  simp [noteIds]

theorem noteIds_str (s : String) (l : List Item) : noteIds (Item.str s :: l) = noteIds l := by
  simp [noteIds]

theorem noteInputIds_openT (t : Tag) (l : List Item) :
    noteInputIds (Item.openT t :: l) = noteInputIds l := by
  simp [noteInputIds]

theorem noteInputIds_closeT (t : Tag) (l : List Item) :
    noteInputIds (Item.closeT t :: l) = noteInputIds l := by
  simp [noteInputIds]

theorem noteInputIds_str (s : String) (l : List Item) :
    noteInputIds (Item.str s :: l) = noteInputIds l := by
  simp [noteInputIds]

theorem close_paragraph_nids (st : ParseState) :
    noteIds (close_paragraph st).1 = [] ∧ noteInputIds (close_paragraph st).1 = [] := by
  simp only [close_paragraph]
  split_ifs <;> simp [noteIds, noteInputIds]

theorem close_list_nids (st : ParseState) :
    noteIds (close_list st).1 = [] ∧ noteInputIds (close_list st).1 = [] := by
  simp only [close_list]
  split_ifs <;> simp [noteIds, noteInputIds]

theorem noteIds_nil : noteIds [] = [] := rfl

theorem noteInputIds_nil : noteInputIds [] = [] := rfl

theorem close_section_nids (st : ParseState) :
    noteIds (close_section st).1 = [] ∧ noteInputIds (close_section st).1 = [] := by
  simp only [close_section]
  split_ifs <;>
    simp only [noteIds_append, noteInputIds_append, (close_paragraph_nids st).1,
      (close_paragraph_nids st).2, (close_list_nids (close_paragraph st).2).1,
      (close_list_nids (close_paragraph st).2).2, noteIds_closeT, noteInputIds_closeT,
      noteIds_nil, noteInputIds_nil, List.append_nil, List.nil_append] <;>
    exact ⟨trivial, trivial⟩

theorem close_paragraph_sid (st : ParseState) :
    (close_paragraph st).2.sidenote_id = st.sidenote_id := by
  simp only [close_paragraph]
  split_ifs <;> rfl

theorem close_list_sid (st : ParseState) : (close_list st).2.sidenote_id = st.sidenote_id := by
  simp only [close_list]
  split_ifs <;> rfl

theorem close_section_sid (st : ParseState) :
    (close_section st).2.sidenote_id = st.sidenote_id := by
  simp only [close_section]
  split_ifs <;> simp [close_list_sid, close_paragraph_sid]

theorem wfc_ids (text : List Char) (ctr : Nat) :
    ctr ≤ (write_formatted_content text ctr).2 ∧
    noteIds (write_formatted_content text ctr).1 =
      List.range' (ctr + 1) ((write_formatted_content text ctr).2 - ctr) ∧
    noteInputIds (write_formatted_content text ctr).1 =
      List.range' (ctr + 1) ((write_formatted_content text ctr).2 - ctr) :=
  wfF_ids text.length text ctr false false false

theorem range'_comp (a b c : Nat) (h1 : a ≤ b) (h2 : b ≤ c) :
    List.range' (a + 1) (b - a) ++ List.range' (b + 1) (c - b) = List.range' (a + 1) (c - a) := by
  have e : b + 1 = (a + 1) + (b - a) := by omega
  rw [e, List.range'_append_1]
  have e2 : c - b + (b - a) = c - a := by omega
  rw [e2]

theorem drop_takeWhile_length {α : Type} (p : α → Bool) (l : List α) :
    l.drop (l.takeWhile p).length = l.dropWhile p := by
  induction l with
  | nil => rfl
  | cons c t ih =>
    by_cases hp : p c
    · simp [List.takeWhile_cons, List.dropWhile_cons, hp, ih]
    · simp [List.takeWhile_cons, List.dropWhile_cons, hp]

theorem dropWhile_length_le {α : Type} (p : α → Bool) (l : List α) :
    (l.dropWhile p).length ≤ l.length := by
  rw [← drop_takeWhile_length]
  simp

theorem nextCursor_le (cursor : List Char) : (nextCursor cursor).length ≤ cursor.length := by
  simp only [nextCursor, drop_takeWhile_length]
  split_ifs with hh
  · have h1 := List.length_tail (cursor.dropWhile fun c => decide (c ≠ '\n'))
    have h2 := dropWhile_length_le (fun c => decide (c ≠ '\n')) cursor
    omega
  · exact dropWhile_length_le _ _

theorem nextCursor_lt (cursor : List Char) (hc : cursor ≠ []) :
    (nextCursor cursor).length < cursor.length := by
  simp only [nextCursor, drop_takeWhile_length]
  have hpos : 0 < cursor.length := List.length_pos.mpr hc
  split_ifs with hh
  · have h1 := List.length_tail (cursor.dropWhile fun c => decide (c ≠ '\n'))
    have h2 := dropWhile_length_le (fun c => decide (c ≠ '\n')) cursor
    have hne : cursor.dropWhile (fun c => decide (c ≠ '\n')) ≠ [] := by
      intro he
      rw [he] at hh
      simp at hh
    have h3 : 0 < (cursor.dropWhile fun c => decide (c ≠ '\n')).length :=
      List.length_pos.mpr hne
    omega
  · rcases he : cursor.dropWhile (fun c => decide (c ≠ '\n')) with _ | ⟨c, t⟩
    · simp [he]
      omega
    · exfalso
      have hnp := List.head?_dropWhile_not (fun c => decide (c ≠ '\n')) cursor
      rw [he] at hnp
      simp only [List.head?_cons] at hnp
      simp only [decide_eq_false_iff_not, not_not] at hnp
      exact hh (by rw [he, hnp]; rfl)

theorem collect_code_block_go_le (f : Nat) : ∀ (cursor acc : List Char),
    (collect_code_block_go f cursor acc).2.length ≤ cursor.length := by
  induction f with
  | zero => intro cursor acc; exact Nat.le_refl _
  | succ f ih =>
    intro cursor acc
    cases cursor with
    | nil => simp [collect_code_block_go]
    | cons c t =>
      have hdrop : ∀ n : Nat, ((c :: t).drop n).length ≤ (c :: t).length := by
        intro n
        simp
      have htail : ∀ n : Nat, (((c :: t).drop n).tail).length ≤ (c :: t).length := by
        intro n
        have h1 := List.length_tail ((c :: t).drop n)
        have h2 := hdrop n
        omega
      simp only [collect_code_block_go]
      split_ifs <;>
        first
        | exact nextCursor_le _
        | exact le_trans (ih _ _) (htail _)
        | exact le_trans (ih _ _) (hdrop _)

theorem collect_paragraph_go_le (f : Nat) : ∀ (cursor acc : List Char) (first : Bool),
    (collect_paragraph_go f cursor acc first).2.length ≤ cursor.length := by
  induction f with
  | zero => intro cursor acc first; exact Nat.le_refl _
  | succ f ih =>
    intro cursor acc first
    cases cursor with
    | nil => simp [collect_paragraph_go]
    | cons c t =>
      simp only [collect_paragraph_go]
      split_ifs <;>
        first
        | exact Nat.le_refl _
        | exact le_trans (ih _ _ _) (nextCursor_le _)

theorem collect_paragraph_go_lt (f : Nat) (cursor acc : List Char) (first : Bool)
    (hc : cursor ≠ []) (hf : cursor.length ≤ f + 1)
    (hg : ¬((cursor.takeWhile fun ch => decide (ch ≠ '\n')).length = 0 ∨
        is_blank_line (cursor.takeWhile fun ch => decide (ch ≠ '\n')) = true ∨
        is_code_fence (cursor.takeWhile fun ch => decide (ch ≠ '\n')) = true ∨
        get_heading_level (cursor.takeWhile fun ch => decide (ch ≠ '\n')) ≠ 0 ∨
        is_unordered_list_item (cursor.takeWhile fun ch => decide (ch ≠ '\n')) = true ∨
        is_ordered_list_item (cursor.takeWhile fun ch => decide (ch ≠ '\n')) = true)) :
    (collect_paragraph_go (f + 1) cursor acc first).2.length < cursor.length := by
  cases cursor with
  | nil => exact absurd rfl hc
  | cons c t =>
    simp only [collect_paragraph_go]
    rw [if_neg hg]
    exact Nat.lt_of_le_of_lt (collect_paragraph_go_le f _ _ _) (nextCursor_lt (c :: t) hc)

theorem collect_paragraph_le (cursor : List Char) :
    (collect_paragraph cursor).2.length ≤ cursor.length :=
  collect_paragraph_go_le cursor.length cursor [] true

theorem parseStep_cursor_lt (cursor : List Char) (st : ParseState) (hc : cursor ≠ []) :
    (parseStep cursor st).2.2.length < cursor.length := by
  simp only [parseStep]
  split_ifs with h1 h2 h3 <;>
    first
    | exact nextCursor_lt cursor hc
    | · -- code fence: collect_code_block consumes a suffix of the cursor after the fence
        have hle : (collect_code_block (nextCursor cursor)).2.length ≤
            (nextCursor cursor).length := by
          simp only [collect_code_block]
          exact collect_code_block_go_le _ _ _
        exact Nat.lt_of_le_of_lt hle (nextCursor_lt cursor hc)
    | · -- paragraph: the first line is not blank or special, so at least one line is consumed
        rcases hl : cursor.length with _ | n
        · exact absurd (List.length_eq_zero.mp hl) hc
        · have hgo := collect_paragraph_go_lt n cursor [] true hc (by omega) ?_
          · simpa only [collect_paragraph, hl] using hgo
          · push_neg
            refine ⟨fun h0 => h1 (Or.inl h0), fun hb => h1 (Or.inr hb), h2, ?_, ?_, ?_⟩
            · simpa using h3
            · assumption
            · assumption

theorem parseStep_ids (cursor : List Char) (st : ParseState) :
    st.sidenote_id ≤ (parseStep cursor st).2.1.sidenote_id ∧
    noteIds (parseStep cursor st).1 =
      List.range' (st.sidenote_id + 1)
        ((parseStep cursor st).2.1.sidenote_id - st.sidenote_id) ∧
    noteInputIds (parseStep cursor st).1 =
      List.range' (st.sidenote_id + 1)
        ((parseStep cursor st).2.1.sidenote_id - st.sidenote_id) := by
  simp only [parseStep]
  split_ifs <;> dsimp only <;>
    simp only [noteIds_append, noteInputIds_append, noteIds_openT, noteIds_closeT, noteIds_str,
      noteInputIds_openT, noteInputIds_closeT, noteInputIds_str, noteIds_nil, noteInputIds_nil,
      (close_paragraph_nids st).1, (close_paragraph_nids st).2,
      (close_list_nids (close_paragraph st).2).1, (close_list_nids (close_paragraph st).2).2,
      (close_list_nids st).1, (close_list_nids st).2,
      (close_section_nids (close_list (close_paragraph st).2).2).1,
      (close_section_nids (close_list (close_paragraph st).2).2).2,
      close_paragraph_sid, close_list_sid, close_section_sid,
      List.append_nil, List.nil_append] <;>
    first
    | exact wfc_ids _ _
    | (refine ⟨Nat.le_refl _, ?_, ?_⟩ <;> simp)

theorem rest_empty_of_head_ne (cursor : List Char)
    (hh : (cursor.drop (cursor.takeWhile fun c => decide (c ≠ '\n')).length).head? ≠ some '\n') :
    cursor.drop (cursor.takeWhile fun c => decide (c ≠ '\n')).length = [] := by
  rw [drop_takeWhile_length] at hh ⊢
  rcases he : cursor.dropWhile (fun c => decide (c ≠ '\n')) with _ | ⟨c, t⟩
  · rfl
  · exfalso
    have hnp := List.head?_dropWhile_not (fun c => decide (c ≠ '\n')) cursor
    rw [he] at hnp
    simp only [List.head?_cons] at hnp
    simp only [decide_eq_false_iff_not, not_not] at hnp
    exact hh (by rw [he, hnp]; rfl)

theorem collect_code_block_go_nil (f : Nat) (acc : List Char) :
    collect_code_block_go f [] acc = (acc, []) := by
  cases f <;> rfl

theorem collect_code_block_go_congr : ∀ (f1 f2 : Nat) (cursor acc : List Char),
    cursor.length ≤ f1 → cursor.length ≤ f2 →
    collect_code_block_go f1 cursor acc = collect_code_block_go f2 cursor acc := by
  intro f1
  induction f1 with
  | zero =>
    intro f2 cursor acc h1 h2
    have : cursor = [] := List.length_eq_zero.mp (Nat.le_zero.mp h1)
    subst this
    rw [collect_code_block_go_nil, collect_code_block_go_nil]
  | succ f1 ih =>
    intro f2 cursor acc h1 h2
    cases cursor with
    | nil => rw [collect_code_block_go_nil, collect_code_block_go_nil]
    | cons c t =>
      cases f2 with
      | zero => simp at h2
      | succ g =>
        have htl : ∀ n : Nat, (((c :: t).drop n).tail).length ≤ t.length := by
          intro n
          have e1 := List.length_tail ((c :: t).drop n)
          have e2 : (((c :: t).drop n)).length ≤ t.length + 1 := by simp
          omega
        have hb1 : (((c :: t).drop
            ((c :: t).takeWhile fun ch => decide (ch ≠ '\n')).length).tail).length ≤ f1 :=
          le_trans (htl _) (by simp at h1; omega)
        have hb2 : (((c :: t).drop
            ((c :: t).takeWhile fun ch => decide (ch ≠ '\n')).length).tail).length ≤ g :=
          le_trans (htl _) (by simp at h2; omega)
        by_cases hn : ((c :: t).drop
            ((c :: t).takeWhile fun ch => decide (ch ≠ '\n')).length).head? = some '\n'
        · simp only [collect_code_block_go, hn]
          split_ifs <;>
            first
            | rfl
            | exact ih g _ _ hb1 hb2
        · have hre := rest_empty_of_head_ne (c :: t) hn
          simp only [collect_code_block_go, hre, List.head?_nil]
          split_ifs <;>
            first
            | rfl
            | (rw [collect_code_block_go_nil, collect_code_block_go_nil])
            | (simp at *)

theorem collect_paragraph_go_nil (f : Nat) (acc : List Char) (first : Bool) :
    collect_paragraph_go f [] acc first = (acc, []) := by
  cases f <;> rfl

theorem collect_paragraph_go_congr : ∀ (f1 f2 : Nat) (cursor acc : List Char) (first : Bool),
    cursor.length ≤ f1 → cursor.length ≤ f2 →
    collect_paragraph_go f1 cursor acc first = collect_paragraph_go f2 cursor acc first := by
  intro f1
  induction f1 with
  | zero =>
    intro f2 cursor acc first h1 h2
    have : cursor = [] := List.length_eq_zero.mp (Nat.le_zero.mp h1)
    subst this
    rw [collect_paragraph_go_nil, collect_paragraph_go_nil]
  | succ f1 ih =>
    intro f2 cursor acc first h1 h2
    cases cursor with
    | nil => rw [collect_paragraph_go_nil, collect_paragraph_go_nil]
    | cons c t =>
      cases f2 with
      | zero => simp at h2
      | succ g =>
        have hlt := nextCursor_lt (c :: t) (by intro hcc; exact List.noConfusion hcc)
        have hb1 : (nextCursor (c :: t)).length ≤ f1 := by omega
        have hb2 : (nextCursor (c :: t)).length ≤ g := by omega
        simp only [collect_paragraph_go]
        split_ifs <;>
          first
          | rfl
          | exact ih g _ _ _ hb1 hb2

theorem parseLoopF_nil (f : Nat) (st : ParseState) : parseLoopF f [] st = ([], st) := by
  cases f <;> simp [parseLoopF]

theorem parseLoopF_congr : ∀ (f1 f2 : Nat) (cursor : List Char) (st : ParseState),
    cursor.length ≤ f1 → cursor.length ≤ f2 →
    parseLoopF f1 cursor st = parseLoopF f2 cursor st := by
  intro f1
  induction f1 with
  | zero =>
    intro f2 cursor st h1 h2
    have : cursor = [] := List.length_eq_zero.mp (Nat.le_zero.mp h1)
    subst this
    rw [parseLoopF_nil, parseLoopF_nil]
  | succ f1 ih =>
    intro f2 cursor st h1 h2
    cases cursor with
    | nil => rw [parseLoopF_nil, parseLoopF_nil]
    | cons c t =>
      cases f2 with
      | zero => simp at h2
      | succ g =>
        simp only [parseLoopF, List.isEmpty_cons]
        have hlt := parseStep_cursor_lt (c :: t) st (by intro hcc; exact List.noConfusion hcc)
        rw [ih g _ _ (by omega) (by omega)]

theorem parseLoopF_ids (f : Nat) : ∀ (cursor : List Char) (st : ParseState),
    st.sidenote_id ≤ (parseLoopF f cursor st).2.sidenote_id ∧
    noteIds (parseLoopF f cursor st).1 =
      List.range' (st.sidenote_id + 1)
        ((parseLoopF f cursor st).2.sidenote_id - st.sidenote_id) ∧
    noteInputIds (parseLoopF f cursor st).1 =
      List.range' (st.sidenote_id + 1)
        ((parseLoopF f cursor st).2.sidenote_id - st.sidenote_id) := by
  induction f with
  | zero => intro cursor st; simp [parseLoopF, noteIds_nil, noteInputIds_nil]
  | succ f ih =>
    intro cursor st
    simp only [parseLoopF]
    split_ifs with he
    · simp [noteIds_nil, noteInputIds_nil]
    · obtain ⟨s1, s2, s3⟩ := parseStep_ids cursor st
      obtain ⟨l1, l2, l3⟩ := ih (parseStep cursor st).2.2 (parseStep cursor st).2.1
      dsimp only
      refine ⟨by omega, ?_, ?_⟩
      · rw [noteIds_append, s2, l2]
        exact range'_comp _ _ _ s1 l1
      · rw [noteInputIds_append, s3, l3]
        exact range'_comp _ _ _ s1 l1

theorem isdigit_not_isspace {c : Char} (h : isdigit c = true) : isspace c = false := by
  simp only [isdigit, Bool.and_eq_true, decide_eq_true_eq] at h
  simp only [isspace, Bool.or_eq_false_iff, beq_eq_false_iff_ne, ne_eq,
    Bool.and_eq_false_iff, decide_eq_false_iff_not]
  omega

theorem isdigit_ne_dash {c : Char} (h : isdigit c = true) : c ≠ '-' := by
  intro he
  subst he
  simp [isdigit] at h

theorem isdigit_ne_plus {c : Char} (h : isdigit c = true) : c ≠ '+' := by
  intro he
  subst he
  simp [isdigit] at h

set_option linter.unnecessarySimpa false in
theorem takeWhile_digits_append : ∀ (Y r : List Char), Y.all isdigit = true →
    (∀ c, r.head? = some c → isdigit c = false) →
    (Y ++ r).takeWhile isdigit = Y ∧ (Y ++ r).drop Y.length = r := by
  intro Y
  induction Y with
  | nil =>
    intro r _ hr
    refine ⟨?_, rfl⟩
    cases r with
    | nil => rfl
    | cons c t => simp [List.takeWhile_cons, hr c rfl]
  | cons d Y' ih =>
    intro r hY hr
    simp only [List.all_cons, Bool.and_eq_true] at hY
    obtain ⟨hd, hY'⟩ := hY
    have hih := ih r hY' hr
    refine ⟨?_, ?_⟩
    · simp [List.takeWhile_cons, hd, hih.1]
    · simpa using hih.2

theorem scanDigits_append (Y r : List Char) (hY : Y.all isdigit = true) (hne : Y ≠ [])
    (hr : ∀ c, r.head? = some c → isdigit c = false) :
    scanDigits (Y ++ r) = some (digitsVal Y, r) := by
  obtain ⟨h1, h2⟩ := takeWhile_digits_append Y r hY hr
  simp only [scanDigits, h1, h2]
  rw [if_neg]
  simpa using hne

theorem scanInt_digits (Y r : List Char) (hY : Y.all isdigit = true) (hne : Y ≠ [])
    (hr : ∀ c, r.head? = some c → isdigit c = false) :
    scanInt (Y ++ r) = some ((digitsVal Y : Int), r) := by
  cases Y with
  | nil => exact absurd rfl hne
  | cons d Y' =>
    simp only [List.all_cons, Bool.and_eq_true] at hY
    obtain ⟨hd, hY'⟩ := hY
    have hsp : isspace d = false := isdigit_not_isspace hd
    simp only [scanInt, List.cons_append, List.dropWhile_cons, hsp, Bool.false_eq_true,
      if_false]
    rw [if_neg (isdigit_ne_dash hd), if_neg (isdigit_ne_plus hd)]
    rw [show d :: (Y' ++ r) = (d :: Y') ++ r from rfl]
    rw [scanDigits_append (d :: Y') r (by simp [hd, hY']) (by simp) hr]
    rfl

theorem sscanf_shape (Y M D : List Char)
    (hY : Y.all isdigit = true) (hYne : Y ≠ [])
    (hM : M.all isdigit = true) (hMne : M ≠ [])
    (hD : D.all isdigit = true) (hDne : D ≠ []) :
    sscanf_d_d_d (Y ++ '-' :: (M ++ '-' :: D)) =
      some ((digitsVal Y : Int), (digitsVal M : Int), (digitsVal D : Int)) := by
  have h1 := scanInt_digits Y ('-' :: (M ++ '-' :: D)) hY hYne
    (by intro c hc; simp only [List.head?_cons, Option.some.injEq] at hc; subst hc; decide)
  have h2 := scanInt_digits M ('-' :: D) hM hMne
    (by intro c hc; simp only [List.head?_cons, Option.some.injEq] at hc; subst hc; decide)
  have h3 : scanInt D = some ((digitsVal D : Int), []) := by
    have hDD := scanInt_digits D [] hD hDne (by intro c hc; simp at hc)
    rw [List.append_nil] at hDD
    exact hDD
  simp only [sscanf_d_d_d, h1, h2, h3]
  simp

theorem toString_intCast_nat (n : Nat) : toString (n : Int) = Nat.repr n := rfl

theorem intPad2_len (n : Nat) (h : n < 100) : (intPad2 (n : Int)).length = 2 := by
  have hr : (Nat.repr n).length ≤ 2 := Nat.repr_length n 2 (by omega) (by omega)
  simp only [intPad2, toString_intCast_nat, String.length_append, String.length_mk,
    List.length_replicate]
  omega

theorem intPad04_len (n : Nat) (h : n < 10000) : (intPad04 (n : Int)).length = 4 := by
  have hr : (Nat.repr n).length ≤ 4 := Nat.repr_length n 4 (by omega) (by omega)
  have hnn : ¬((n : Int) < 0) := by omega
  simp only [intPad04, hnn, if_false, toString_intCast_nat, String.length_append,
    String.length_mk, List.length_replicate]
  omega

theorem months_full_getD_len (i : Nat) : (MONTHS_FULL.getD i "").length ≤ 9 := by
  match i with
  | 0 | 1 | 2 | 3 | 4 | 5 | 6 | 7 | 8 | 9 | 10 | 11 => decide
  | n + 12 =>
    have hlen : MONTHS_FULL.length ≤ n + 12 := by simp [MONTHS_FULL]
    simp [List.getD_eq_getElem?_getD, List.getElem?_eq_none hlen]

theorem truncate31_eq (s : String) (h : s.length ≤ 31) : truncate31 s = s := by
  obtain ⟨l⟩ := s
  simp only [truncate31, String.toList]
  rw [List.take_of_length_le (by simpa using h)]
  rfl

theorem toNat_ofNat_small (n : Nat) (h : n < 55296) : (Char.ofNat n).toNat = n := by
  have hv : n.isValidChar := Or.inl (by omega)
  rw [Char.ofNat, dif_pos hv]
  simp [Char.ofNatAux, Char.toNat, UInt32.toNat, BitVec.toNat_ofNatLt]

theorem tolower_fixes (c : Char) (h : isalnum c = true) :
    isalnum (tolower c) = true ∧ tolower (tolower c) = tolower c := by
  simp only [isalnum, isdigit, Bool.or_eq_true, Bool.and_eq_true, decide_eq_true_eq] at h
  by_cases hup : 65 ≤ c.toNat ∧ c.toNat ≤ 90
  · have ht : (tolower c).toNat = c.toNat + 32 := by
      rw [tolower, if_pos hup]
      exact toNat_ofNat_small _ (by omega)
    constructor
    · simp only [isalnum, isdigit, Bool.or_eq_true, Bool.and_eq_true, decide_eq_true_eq, ht]
      omega
    · have hcond : ¬(65 ≤ (tolower c).toNat ∧ (tolower c).toNat ≤ 90) := by
        rw [ht]
        omega
      show (if 65 ≤ (tolower c).toNat ∧ (tolower c).toNat ≤ 90 then
          Char.ofNat ((tolower c).toNat + 32) else tolower c) = tolower c
      rw [if_neg hcond]
  · have ht : tolower c = c := by rw [tolower, if_neg hup]
    rw [ht, ht]
    constructor
    · simp only [isalnum, isdigit, Bool.or_eq_true, Bool.and_eq_true, decide_eq_true_eq]
      omega
    · rfl

theorem isalnum_dash : isalnum '-' = false := by decide

theorem slugify_go_copies (cap : Nat) : ∀ (l : List Char) (j : Nat) (prev : Bool),
    SlugOK prev l → j + l.length ≤ cap → slugify_go cap l j prev = l := by
  intro l
  induction l with
  | nil => intro j prev _ _; rfl
  | cons c t ih =>
    intro j prev hok hlen
    have hj : j < cap := by simp at hlen; omega
    rcases hok with ⟨h1, h2, h3⟩ | ⟨h1, h2, h3⟩
    · simp only [slugify_go, if_pos hj, h1, if_true]
      rw [h2, ih (j + 1) false h3 (by simp at hlen ⊢; omega)]
    · subst h1 h2
      simp only [slugify_go, if_pos hj, isalnum_dash, Bool.false_eq_true, if_false,
        Bool.not_false, if_true]
      rw [ih (j + 1) true h3 (by simp at hlen ⊢; omega)]

theorem slugify_go_ok (cap : Nat) : ∀ (l : List Char) (j : Nat) (prev : Bool),
    SlugOK prev (slugify_go cap l j prev) := by
  intro l
  induction l with
  | nil => intro j prev; trivial
  | cons c t ih =>
    intro j prev
    by_cases hj : j < cap
    · by_cases ha : isalnum c = true
      · simp only [slugify_go, if_pos hj, ha, if_true]
        exact Or.inl ⟨(tolower_fixes c ha).1, (tolower_fixes c ha).2, ih (j + 1) false⟩
      · cases prev with
        | false =>
          simp only [slugify_go, if_pos hj, ha, Bool.false_eq_true, if_false,
            Bool.not_false, if_true]
          exact Or.inr ⟨rfl, rfl, ih (j + 1) true⟩
        | true =>
          simp only [slugify_go, if_pos hj, ha, Bool.false_eq_true, if_false,
            Bool.not_true]
          exact ih j true
    · simp only [slugify_go, if_neg hj]
      trivial

theorem slugify_go_len (cap : Nat) : ∀ (l : List Char) (j : Nat) (prev : Bool),
    (slugify_go cap l j prev).length ≤ cap - j := by
  intro l
  induction l with
  | nil => intro j prev; simp [slugify_go]
  | cons c t ih =>
    intro j prev
    by_cases hj : j < cap
    · have h1 := ih (j + 1) false
      have h2 := ih (j + 1) true
      have h3 := ih j prev
      simp only [slugify_go, if_pos hj]
      split_ifs <;> (try simp only [List.length_cons]) <;> omega
    · simp [slugify_go, hj]

theorem SlugOK_dropLast : ∀ (l : List Char) (prev : Bool),
    SlugOK prev l → SlugOK prev l.dropLast := by
  intro l
  induction l with
  | nil => intro prev _; trivial
  | cons c t ih =>
    intro prev hok
    cases t with
    | nil => trivial
    | cons d t' =>
      have hdl : (c :: d :: t').dropLast = c :: (d :: t').dropLast := rfl
      rw [hdl]
      rcases hok with ⟨h1, h2, h3⟩ | ⟨h1, h2, h3⟩
      · exact Or.inl ⟨h1, h2, ih false h3⟩
      · exact Or.inr ⟨h1, h2, ih true h3⟩

theorem SlugOK_trim_last : ∀ (l : List Char) (prev : Bool), SlugOK prev l →
    (if l.getLast? = some '-' then l.dropLast else l).getLast? ≠ some '-' := by
  intro l
  induction l with
  | nil => intro prev _; simp
  | cons c t ih =>
    intro prev hok
    cases t with
    | nil =>
      rcases hok with ⟨h1, _, _⟩ | ⟨h1, _, _⟩
      · have hc : c ≠ '-' := by
          intro he
          rw [he] at h1
          exact absurd h1 (by rw [isalnum_dash]; simp)
        simp [List.getLast?_singleton, hc]
      · subst h1
        simp
    | cons d t' =>
      have hgl : (c :: d :: t').getLast? = (d :: t').getLast? := List.getLast?_cons_cons
      have hok' : ∃ prev', SlugOK prev' (d :: t') := by
        rcases hok with ⟨_, _, h3⟩ | ⟨_, _, h3⟩
        · exact ⟨false, h3⟩
        · exact ⟨true, h3⟩
      obtain ⟨prev', hok'⟩ := hok'
      have hih := ih prev' hok'
      rw [hgl]
      split_ifs with hd
      · rw [if_pos hd] at hih
        have hdl : (c :: d :: t').dropLast = c :: (d :: t').dropLast := rfl
        rw [hdl]
        cases t' with
        | nil =>
          -- l = [c, d] with d = '-'; SlugOK forbids c = '-'
          simp only [List.dropLast_single, List.getLast?_singleton, ne_eq,
            Option.some.injEq]
          simp only [List.getLast?_singleton, Option.some.injEq] at hd
          subst hd
          rcases hok with ⟨h1, _, _⟩ | ⟨_, _, h3⟩
          · intro he
            rw [he] at h1
            exact absurd h1 (by rw [isalnum_dash]; simp)
          · rcases h3 with ⟨ha, _, _⟩ | ⟨_, hp, _⟩
            · exact absurd ha (by rw [isalnum_dash]; simp)
            · exact absurd hp (by simp)
        | cons e t'' =>
          rcases hx : (d :: e :: t'').dropLast with _ | ⟨a, y⟩
          · have hl : (d :: e :: t'').dropLast.length = t''.length + 1 := by
              simp [List.length_dropLast]
            rw [hx] at hl
            simp at hl
          · rw [hx] at hih
            rw [List.getLast?_cons_cons]
            exact hih
      · rw [if_neg hd] at hih
        exact hih

theorem close_paragraph_insec (st : ParseState) :
    (close_paragraph st).2.in_section = st.in_section := by
  simp only [close_paragraph]
  split_ifs <;> rfl

theorem close_list_insec (st : ParseState) :
    (close_list st).2.in_section = st.in_section := by
  simp only [close_list]
  split_ifs <;> rfl

theorem close_paragraph_block (st : ParseState) :
    (close_paragraph st).2.block = st.block := by
  simp only [close_paragraph]
  split_ifs <;> rfl

theorem close_list_of_close_paragraph (st : ParseState) :
    (close_list (close_paragraph st).2).1 = (close_list st).1 := by
  simp only [close_list, close_paragraph_block]
  split_ifs <;> rfl

theorem slugify_fixed (out : List Char) (output_size : Nat)
    (hok : SlugOK true out) (hlen : out.length ≤ output_size - 1)
    (hlast : out.getLast? ≠ some '-') :
    slugify out output_size = out := by
  simp only [slugify]
  rw [slugify_go_copies (output_size - 1) out 0 true hok (by omega)]
  rw [if_neg hlast]

/-- Claim C2: for every input body, the HTML markup emitted by the block
parser (the body loop of `build_page` together with its final
`close_section`) is balanced: for each tag kind named by the spec (section,
p, ul, ol, li, pre, code, h1..h6, strong, em, mark, label, span) the number
of opening tags printed equals the number of closing tags printed, so every
tag the parser opens is closed before the document ends.  Input bytes the
renderer passes through verbatim are not markup printed by the parser and
are not counted. -/
theorem c2_tag_balance (body : List Char) (k : TagKind) :
    opensK k (parse_body body).1 = closesK k (parse_body body).1 := by
  have hb := Balanced_comp
    (parseLoopF_bal body.length body ⟨false, false, BlockType.none, 0⟩)
    (bal_close_section (parseLoopF body.length body ⟨false, false, BlockType.none, 0⟩).2) k
  have h0 : netK k (⟨false, false, BlockType.none, 0⟩ : ParseState) = 0 := by
    cases k <;> rfl
  have hf := close_section_net k
    (parseLoopF body.length body ⟨false, false, BlockType.none, 0⟩).2
  simp only [parse_body]
  omega

/-- Claim C3: within one page the emitted note ids — sidenotes `sn-N` and
margin notes `mn-N` draw from one shared counter obtained by pre-increment,
including notes rendered recursively inside note content — form exactly the
sequence 1, 2, …, k with no gaps and no repeats: both the label ids and the
checkbox-input ids are `List.range' 1 k`, where k is the final counter. -/
theorem c3_note_ids (body : List Char) :
    noteIds (parse_body body).1 = List.range' 1 (parse_body body).2.sidenote_id ∧
    noteInputIds (parse_body body).1 = List.range' 1 (parse_body body).2.sidenote_id := by
  obtain ⟨l1, l2, l3⟩ := parseLoopF_ids body.length body ⟨false, false, BlockType.none, 0⟩
  simp only [parse_body, noteIds_append, noteInputIds_append,
    (close_section_nids (parseLoopF body.length body ⟨false, false, BlockType.none, 0⟩).2).1,
    (close_section_nids (parseLoopF body.length body ⟨false, false, BlockType.none, 0⟩).2).2,
    List.append_nil, close_section_sid]
  constructor
  · rw [l2]
    norm_num
  · rw [l3]
    norm_num

/-- Claim C8: `slugify` is idempotent at the same output-buffer capacity:
re-slugifying a slug returns it unchanged.  (Capacity at least 1; a
zero-size buffer is out of bounds in the C code, whose unconditional
`output[j] = 0` write would overflow it.) -/
theorem c8_slugify_idempotent (x : List Char) (output_size : Nat)
    (h : 1 ≤ output_size) :
    slugify (slugify x output_size) output_size = slugify x output_size := by
  have hok := slugify_go_ok (output_size - 1) x 0 true
  have hlen := slugify_go_len (output_size - 1) x 0 true
  have hout_ok : SlugOK true (slugify x output_size) := by
    simp only [slugify]
    split_ifs with hd
    · exact SlugOK_dropLast _ _ hok
    · exact hok
  have hout_len : (slugify x output_size).length ≤ output_size - 1 := by
    simp only [slugify]
    split_ifs with hd
    · have := List.length_dropLast (slugify_go (output_size - 1) x 0 true)
      omega
    · omega
  have hout_last : (slugify x output_size).getLast? ≠ some '-' := by
    simpa only [slugify] using
      SlugOK_trim_last (slugify_go (output_size - 1) x 0 true) true hok
  exact slugify_fixed _ output_size hout_ok hout_len hout_last

theorem c8_slugify_idempotent_witness :
    1 ≤ 256 ∧ slugify (slugify ("Hello, World!".toList) 256) 256 =
      slugify ("Hello, World!".toList) 256 :=
  ⟨by decide, c8_slugify_idempotent ("Hello, World!".toList) 256 (by decide)⟩

/-- Claim C9 (amended): `close_paragraph`, `close_list` and `close_section`
are idempotent — calling one again on the state it produced emits nothing
and leaves the state unchanged — and at end-of-body the parser invokes
`close_section`, which emits the paragraph closer, then the list closer,
then the section closer (paragraph before list — not list before paragraph
as the claim states), so all tags opened have matching closers. -/
theorem c9_closers_idempotent :
    (∀ st : ParseState,
      close_paragraph (close_paragraph st).2 = ([], (close_paragraph st).2)) ∧
    (∀ st : ParseState, close_list (close_list st).2 = ([], (close_list st).2)) ∧
    (∀ st : ParseState, close_section (close_section st).2 = ([], (close_section st).2)) ∧
    (∀ st : ParseState, (close_section st).1 =
      (close_paragraph st).1 ++ (close_list st).1 ++
        (if st.in_section then [Item.closeT Tag.sec] else [])) := by
  refine ⟨?_, ?_, ?_, ?_⟩
  · intro st
    simp [close_paragraph]
    split_ifs <;> simp_all
  · intro st
    obtain ⟨s1, s2, s3, s4⟩ := st
    cases s3 <;> simp [close_list]
  · intro st
    have key : ∀ u : ParseState, u.in_paragraph = false →
        u.block ≠ BlockType.unordered_list → u.block ≠ BlockType.ordered_list →
        u.in_section = false → close_section u = ([], u) := by
      intro u h1 h2 h3 h4
      simp [close_section, close_paragraph, close_list, h1, h2, h3, h4]
    exact key _ (close_section_inpar st) (close_section_block st).1
      (close_section_block st).2 (close_section_insec st)
  · intro st
    have hcond : (close_list (close_paragraph st).2).2.in_section = st.in_section := by
      rw [close_list_insec, close_paragraph_insec]
    simp only [close_section, close_list_of_close_paragraph, hcond]
    by_cases hs : st.in_section = true
    · rw [if_pos hs, if_pos hs]
    · rw [if_neg hs, if_neg hs]
      simp

/-- Claim C9 counterexample: at a state with a paragraph, a list, and a
section all recorded open, `close_section` emits `</p>` before `</ul>` —
the parser closes the paragraph first, not the list first as the claim
states. -/
theorem c9_counterexample :
    (close_section ⟨true, true, BlockType.unordered_list, 0⟩).1 =
      [Item.closeT Tag.p, Item.closeT Tag.ul, Item.closeT Tag.sec] ∧
    (close_section ⟨true, true, BlockType.unordered_list, 0⟩).1 ≠
      [Item.closeT Tag.ul, Item.closeT Tag.p, Item.closeT Tag.sec] := by
  constructor <;> decide

theorem takeWhile_no_newline (l t : List Char) (hl : ('\n' : Char) ∉ l) :
    (l ++ '\n' :: t).takeWhile (fun c => decide (c ≠ '\n')) = l := by
  induction l with
  | nil => simp [List.takeWhile_cons]
  | cons c l' ih =>
    have hc : c ≠ '\n' := fun he => hl (he ▸ List.mem_cons_self c l')
    have hl' : ('\n' : Char) ∉ l' := fun hx => hl (List.mem_cons_of_mem c hx)
    have ih' := ih hl'
    simp only [decide_not] at ih'
    simp [List.takeWhile_cons, hc, ih']

theorem is_blank_head (c : Char) (X : List Char) (h1 : (c == ' ') = false)
    (h2 : (c == '\t') = false) : is_blank_line (c :: X) = false := by
  simp [is_blank_line, h1, h2]

theorem is_code_fence_head (c : Char) (X : List Char) (h : (c == backtick) = false) :
    is_code_fence (c :: X) = false := by
  cases X with
  | nil => rfl
  | cons e X' =>
    cases X' with
    | nil => rfl
    | cons f X'' => simp [is_code_fence, h]

theorem get_heading_level_head (c : Char) (X : List Char) (h : (c == '#') = false) :
    get_heading_level (c :: X) = 0 := by
  simp [get_heading_level, List.takeWhile_cons, h]

theorem is_unordered_head (c : Char) (X : List Char) (h : (c == '-') = false) :
    is_unordered_list_item (c :: X) = false := by
  cases X with
  | nil => rfl
  | cons e X' => simp [is_unordered_list_item, h]

theorem is_ordered_head (c : Char) (X : List Char) (h : isdigit c = false) :
    is_ordered_list_item (c :: X) = false := by
  simp [is_ordered_list_item, List.takeWhile_cons, h]

theorem isdigit_head_facts (c : Char) (h : isdigit c = true) :
    (c == ' ') = false ∧ (c == '\t') = false ∧ (c == backtick) = false ∧
      (c == '#') = false ∧ (c == '-') = false ∧ c ≠ '\n' := by
  refine ⟨?_, ?_, ?_, ?_, ?_, ?_⟩ <;>
    first
    | (rw [beq_eq_false_iff_ne]
       intro he
       subst he
       exact absurd h (by decide))
    | (intro he
       subst he
       exact absurd h (by decide))

theorem parseStep_ordered (d rest tail : List Char) (st : ParseState)
    (hd : d ≠ []) (hdig : d.all isdigit = true) (hr : ('\n' : Char) ∉ rest) :
    parseStep (d ++ '.' :: ' ' :: (rest ++ '\n' :: tail)) st =
      ((close_paragraph st).1 ++
          (if (close_paragraph st).2.block ≠ BlockType.ordered_list then
              (close_list (close_paragraph st).2).1 ++ [Item.openT Tag.ol]
            else []) ++
          Item.openT Tag.li ::
            ((write_formatted_content rest
                (if (close_paragraph st).2.block ≠ BlockType.ordered_list then
                    { (close_list (close_paragraph st).2).2 with
                        block := BlockType.ordered_list }
                  else (close_paragraph st).2).sidenote_id).1 ++
              [Item.closeT Tag.li]),
        { (if (close_paragraph st).2.block ≠ BlockType.ordered_list then
              { (close_list (close_paragraph st).2).2 with block := BlockType.ordered_list }
            else (close_paragraph st).2) with
            sidenote_id :=
              (write_formatted_content rest
                (if (close_paragraph st).2.block ≠ BlockType.ordered_list then
                    { (close_list (close_paragraph st).2).2 with
                        block := BlockType.ordered_list }
                  else (close_paragraph st).2).sidenote_id).2 },
        tail) := by
  obtain ⟨c, d', rfl⟩ : ∃ c d', d = c :: d' := by
    cases d with
    | nil => exact absurd rfl hd
    | cons c d' => exact ⟨c, d', rfl⟩
  have hcdig : isdigit c = true := by
    simp only [List.all_cons, Bool.and_eq_true] at hdig
    exact hdig.1
  obtain ⟨f1, f2, f3, f4, f5, f6⟩ := isdigit_head_facts c hcdig
  have hnl_line : ('\n' : Char) ∉ c :: (d' ++ '.' :: ' ' :: rest) := by
    intro hmem
    rcases List.mem_cons.mp hmem with hm | hm
    · exact f6 hm.symm
    · rcases List.mem_append.mp hm with hm2 | hm2
      · have hdd := List.all_eq_true.mp hdig _ (List.mem_cons_of_mem c hm2)
        exact absurd hdd (by decide)
      · rcases List.mem_cons.mp hm2 with hm3 | hm3
        · exact absurd hm3 (by decide)
        · rcases List.mem_cons.mp hm3 with hm4 | hm4
          · exact absurd hm4 (by decide)
          · exact hr hm4
  have h1 : c :: (d' ++ '.' :: ' ' :: (rest ++ '\n' :: tail)) =
      (c :: (d' ++ '.' :: ' ' :: rest)) ++ '\n' :: tail := by simp
  have hline : (c :: (d' ++ '.' :: ' ' :: (rest ++ '\n' :: tail))).takeWhile
      (fun ch => decide (ch ≠ '\n')) = c :: (d' ++ '.' :: ' ' :: rest) := by
    rw [h1]
    exact takeWhile_no_newline (c :: (d' ++ '.' :: ' ' :: rest)) tail hnl_line
  have hdig2 := takeWhile_digits_append (c :: d') ('.' :: ' ' :: rest) hdig
    (by intro ch hch; simp only [List.head?_cons, Option.some.injEq] at hch; subst hch; decide)
  simp only [List.cons_append, List.length_cons] at hdig2
  have htw : (c :: (d' ++ '.' :: ' ' :: rest)).takeWhile isdigit = c :: d' := hdig2.1
  have hdr : (c :: (d' ++ '.' :: ' ' :: rest)).drop (d'.length + 1) = '.' :: ' ' :: rest :=
    hdig2.2
  have hord : is_ordered_list_item (c :: (d' ++ '.' :: ' ' :: rest)) = true := by
    simp only [is_ordered_list_item, htw, List.length_cons]
    rw [hdr]
    simp
  have hoff : get_list_item_offset (c :: (d' ++ '.' :: ' ' :: rest)) = d'.length + 3 := by
    simp only [get_list_item_offset, is_unordered_head _ _ f5, hord, htw]
    simp
  have hdrop3 : (c :: (d' ++ '.' :: ' ' :: rest)).drop (d'.length + 3) = rest := by
    have he : d'.length + 3 = d'.length + 1 + 2 := by omega
    rw [he, ← List.drop_drop, hdr]
    rfl
  have hline' : ((c :: (d' ++ '.' :: ' ' :: rest)) ++ '\n' :: tail).takeWhile
      (fun ch => decide (ch ≠ '\n')) = c :: (d' ++ '.' :: ' ' :: rest) := by
    rw [← h1]
    exact hline
  have hnext : nextCursor (c :: (d' ++ '.' :: ' ' :: (rest ++ '\n' :: tail))) = tail := by
    simp only [nextCursor]
    rw [h1, hline', List.drop_left]
    simp
  have hA : ¬((c :: (d' ++ '.' :: ' ' :: rest)).length = 0 ∨
      is_blank_line (c :: (d' ++ '.' :: ' ' :: rest)) = true) := by
    simp [is_blank_head _ _ f1 f2]
  have hB : ¬is_code_fence (c :: (d' ++ '.' :: ' ' :: rest)) = true := by
    simp [is_code_fence_head _ _ f3]
  have hC : ¬get_heading_level (c :: (d' ++ '.' :: ' ' :: rest)) ≠ 0 := by
    simp [get_heading_level_head _ _ f4]
  have hD : ¬is_unordered_list_item (c :: (d' ++ '.' :: ' ' :: rest)) = true := by
    simp [is_unordered_head _ _ f5]
  simp only [List.cons_append]
  simp only [parseStep, hline, hnext]
  rw [if_neg hA, if_neg hB, if_neg hC, if_neg hD, if_pos hord, hoff, hdrop3]
  split_ifs <;> rfl

/-- Claim C10: the numeric value of an ordered-item marker is discarded: two
ordered-item lines that differ only in their leading digits produce exactly
the same parser step — the same emitted items (in particular a byte-identical
`<li>` element), the same state, and the same remaining cursor. -/
theorem c10_ordered_marker_discarded (d1 d2 rest tail : List Char) (st : ParseState)
    (h1 : d1 ≠ []) (h2 : d2 ≠ []) (h3 : d1.all isdigit = true) (h4 : d2.all isdigit = true)
    (h5 : ('\n' : Char) ∉ rest) :
    parseStep (d1 ++ '.' :: ' ' :: (rest ++ '\n' :: tail)) st =
      parseStep (d2 ++ '.' :: ' ' :: (rest ++ '\n' :: tail)) st := by
  rw [parseStep_ordered d1 rest tail st h1 h3 h5,
    parseStep_ordered d2 rest tail st h2 h4 h5]

theorem c10_ordered_marker_discarded_witness :
    (['1'] : List Char) ≠ [] ∧ (['9', '9'] : List Char) ≠ [] ∧
    parseStep (['1'] ++ '.' :: ' ' :: (['x'] ++ '\n' :: [])) ⟨false, false, BlockType.none, 0⟩ =
      parseStep (['9', '9'] ++ '.' :: ' ' :: (['x'] ++ '\n' :: []))
        ⟨false, false, BlockType.none, 0⟩ :=
  ⟨by decide, by decide,
    c10_ordered_marker_discarded ['1'] ['9', '9'] ['x'] [] _ (by decide) (by decide)
      (by decide) (by decide) (by decide)⟩

theorem secK_cp_opens (st : ParseState) :
    opensK TagKind.sectionK (close_paragraph st).1 = 0 := by
  simp only [close_paragraph]
  split_ifs <;> rfl

theorem secK_cp_closes (st : ParseState) :
    closesK TagKind.sectionK (close_paragraph st).1 = 0 := by
  simp only [close_paragraph]
  split_ifs <;> rfl

theorem secK_cl_opens (st : ParseState) :
    opensK TagKind.sectionK (close_list st).1 = 0 := by
  simp only [close_list]
  split_ifs <;> rfl

theorem secK_cl_closes (st : ParseState) :
    closesK TagKind.sectionK (close_list st).1 = 0 := by
  simp only [close_list]
  split_ifs <;> rfl

theorem secK_w_sec : tagWeight TagKind.sectionK Tag.sec = 1 := rfl

theorem secK_w_p : tagWeight TagKind.sectionK Tag.p = 0 := rfl

theorem secK_w_ul : tagWeight TagKind.sectionK Tag.ul = 0 := rfl

theorem secK_w_ol : tagWeight TagKind.sectionK Tag.ol = 0 := rfl

theorem secK_w_li : tagWeight TagKind.sectionK Tag.li = 0 := rfl

theorem secK_w_pre : tagWeight TagKind.sectionK Tag.preCode = 0 := rfl

theorem secK_w_h (n : Nat) : tagWeight TagKind.sectionK (Tag.h n) = 0 := rfl

theorem netK_sec (s : ParseState) : netK TagKind.sectionK s = if s.in_section then 1 else 0 :=
  rfl

theorem secK_cs_opens (st : ParseState) :
    opensK TagKind.sectionK (close_section st).1 = 0 := by
  simp only [close_section]
  split_ifs with hs
  · rw [opensK_append, opensK_append, secK_cp_opens, secK_cl_opens]
    rfl
  · rw [opensK_append, secK_cp_opens, secK_cl_opens]

theorem secK_cs_closes (st : ParseState) :
    closesK TagKind.sectionK (close_section st).1 = netK TagKind.sectionK st := by
  simp only [close_section]
  split_ifs with hs
  · have hst : st.in_section = true := by
      rw [← close_paragraph_insec st, ← close_list_insec (close_paragraph st).2]
      exact hs
    rw [closesK_append, closesK_append, secK_cp_closes, secK_cl_closes, netK_sec, if_pos hst]
    rfl
  · have hst : st.in_section = false := by
      rw [← close_paragraph_insec st, ← close_list_insec (close_paragraph st).2]
      exact Bool.eq_false_iff.mpr hs
    rw [closesK_append, secK_cp_closes, secK_cl_closes, netK_sec, hst]
    rfl

theorem secK_inline_list : ∀ (l : List Item), (∀ it ∈ l, inline_item it) →
    opensK TagKind.sectionK l = 0 ∧ closesK TagKind.sectionK l = 0 := by
  intro l
  induction l with
  | nil => intro _; exact ⟨rfl, rfl⟩
  | cons it l ih =>
    intro hl
    have hit := hl it (List.mem_cons_self it l)
    have hrest := ih fun x hx => hl x (List.mem_cons_of_mem it hx)
    rw [opensK_cons, closesK_cons, hrest.1, hrest.2]
    cases it with
    | openT t =>
      rcases hit with h | h | h | h | h <;> subst h <;> exact ⟨rfl, rfl⟩
    | closeT t =>
      rcases hit with h | h | h | h | h <;> subst h <;> exact ⟨rfl, rfl⟩
    | str s => exact ⟨rfl, rfl⟩
    | codeSpan s => exact ⟨rfl, rfl⟩
    | snLabel n => exact ⟨rfl, rfl⟩
    | snInput n => exact ⟨rfl, rfl⟩
    | mnLabel n => exact ⟨rfl, rfl⟩
    | mnInput n => exact ⟨rfl, rfl⟩

theorem secK_wfc_opens (text : List Char) (ctr : Nat) :
    opensK TagKind.sectionK (write_formatted_content text ctr).1 = 0 :=
  (secK_inline_list _ fun it hit => wfF_inline text.length text ctr false false false it hit).1

theorem secK_wfc_closes (text : List Char) (ctr : Nat) :
    closesK TagKind.sectionK (write_formatted_content text ctr).1 = 0 :=
  (secK_inline_list _ fun it hit => wfF_inline text.length text ctr false false false it hit).2

theorem heading2_shape (line : List Char) (h : get_heading_level line = 2) :
    ∃ t, line = '#' :: '#' :: ' ' :: t := by
  simp only [get_heading_level] at h
  split_ifs at h with hc
  obtain ⟨h1, h2, h3⟩ := hc
  rw [h] at h3
  cases line with
  | nil => simp at h
  | cons a l1 =>
    cases l1 with
    | nil =>
      exfalso
      by_cases ha : (a == '#') = true <;> simp [List.takeWhile_cons, ha] at h
    | cons b l2 =>
      by_cases ha : (a == '#') = true
      case neg => exfalso; simp [List.takeWhile_cons, ha] at h
      by_cases hb : (b == '#') = true
      case neg => exfalso; simp [List.takeWhile_cons, ha, hb] at h
      simp only [List.drop_succ_cons, List.drop_zero] at h3
      cases l2 with
      | nil => simp at h3
      | cons e t =>
        have ha' : a = '#' := beq_iff_eq.mp ha
        have hb' : b = '#' := beq_iff_eq.mp hb
        have he' : e = ' ' := by
          simp only [List.head?_cons, Option.some.injEq] at h3
          exact h3
        exact ⟨t, by rw [ha', hb', he']⟩

theorem parseStep_h2_secK (cursor : List Char) (st : ParseState)
    (h : get_heading_level (cursor.takeWhile fun c => c ≠ '\n') = 2) :
    (parseStep cursor st).2.1.in_section = true ∧
      opensK TagKind.sectionK (parseStep cursor st).1 = 1 ∧
      closesK TagKind.sectionK (parseStep cursor st).1 = netK TagKind.sectionK st := by
  obtain ⟨t, ht⟩ := heading2_shape _ h
  have g1 : ¬((cursor.takeWhile fun c => c ≠ '\n').length = 0 ∨
      is_blank_line (cursor.takeWhile fun c => c ≠ '\n') = true) := by
    rw [ht]
    simp [is_blank_line]
  have hbt : ('#' == backtick) = false := by decide
  have g2 : ¬is_code_fence (cursor.takeWhile fun c => c ≠ '\n') = true := by
    rw [ht]
    simp [is_code_fence, hbt]
  have g3 : get_heading_level (cursor.takeWhile fun c => c ≠ '\n') ≠ 0 := by
    rw [h]
    decide
  simp only [parseStep]
  rw [if_neg g1, if_neg g2, if_pos g3, if_pos h]
  refine ⟨rfl, ?_, ?_⟩
  · simp only [opensK_append, opensK_cons, opensK_nil, secK_cp_opens, secK_cl_opens,
      secK_cs_opens, secK_wfc_opens, itemOpensK, secK_w_sec, secK_w_h]
  · simp only [closesK_append, closesK_cons, closesK_nil, secK_cp_closes, secK_cl_closes,
      secK_cs_closes, secK_wfc_closes, itemClosesK, secK_w_sec, secK_w_h, netK_sec,
      close_list_insec, close_paragraph_insec]
    all_goals split_ifs <;> simp

set_option linter.unnecessarySeqFocus false in
theorem parseStep_nh2_secK (cursor : List Char) (st : ParseState)
    (h : get_heading_level (cursor.takeWhile fun c => c ≠ '\n') ≠ 2) :
    (parseStep cursor st).2.1.in_section = st.in_section ∧
      opensK TagKind.sectionK (parseStep cursor st).1 = 0 ∧
      closesK TagKind.sectionK (parseStep cursor st).1 = 0 := by
  simp only [parseStep]
  split_ifs <;>
    first
    | exact absurd ‹get_heading_level (cursor.takeWhile fun c => c ≠ '\n') = 2› h
    | (refine ⟨?_, ?_, ?_⟩ <;>
        simp only [opensK_append, opensK_cons, opensK_nil, closesK_append, closesK_cons,
          closesK_nil, secK_cp_opens, secK_cl_opens, secK_cp_closes, secK_cl_closes,
          secK_wfc_opens, secK_wfc_closes, itemOpensK, itemClosesK, secK_w_p, secK_w_ul,
          secK_w_ol, secK_w_li, secK_w_pre, secK_w_h, List.append_nil] <;>
        simp [close_list_insec, close_paragraph_insec])

/-- Claim C6: `in_section` becomes true exactly when a level-2 heading line is
processed — that step opens one `<section>` and first closes the previously
open one if any; a step on any other line (including headings of other
levels) neither opens nor closes a section and leaves `in_section` unchanged;
and the end-of-document `close_section` closes the section exactly when one
is open, leaving `in_section` false. -/
theorem c6_section_discipline (cursor : List Char) (st : ParseState) :
    (get_heading_level (cursor.takeWhile fun c => c ≠ '\n') = 2 →
      (parseStep cursor st).2.1.in_section = true ∧
        opensK TagKind.sectionK (parseStep cursor st).1 = 1 ∧
        closesK TagKind.sectionK (parseStep cursor st).1 = netK TagKind.sectionK st) ∧
    (get_heading_level (cursor.takeWhile fun c => c ≠ '\n') ≠ 2 →
      (parseStep cursor st).2.1.in_section = st.in_section ∧
        opensK TagKind.sectionK (parseStep cursor st).1 = 0 ∧
        closesK TagKind.sectionK (parseStep cursor st).1 = 0) ∧
    (close_section st).2.in_section = false ∧
    opensK TagKind.sectionK (close_section st).1 = 0 ∧
    closesK TagKind.sectionK (close_section st).1 = netK TagKind.sectionK st :=
  ⟨parseStep_h2_secK cursor st, parseStep_nh2_secK cursor st, close_section_insec st,
    secK_cs_opens st, secK_cs_closes st⟩

theorem c6_section_discipline_witness :
    ((parseStep "## A\nx".toList ⟨true, true, BlockType.unordered_list, 0⟩).2.1.in_section =
        true ∧
      opensK TagKind.sectionK
          (parseStep "## A\nx".toList ⟨true, true, BlockType.unordered_list, 0⟩).1 = 1 ∧
      closesK TagKind.sectionK
          (parseStep "## A\nx".toList ⟨true, true, BlockType.unordered_list, 0⟩).1 =
        netK TagKind.sectionK ⟨true, true, BlockType.unordered_list, 0⟩) ∧
    ((parseStep "# B\nx".toList ⟨true, false, BlockType.none, 0⟩).2.1.in_section =
        (⟨true, false, BlockType.none, 0⟩ : ParseState).in_section ∧
      opensK TagKind.sectionK (parseStep "# B\nx".toList ⟨true, false, BlockType.none, 0⟩).1 =
        0 ∧
      closesK TagKind.sectionK
          (parseStep "# B\nx".toList ⟨true, false, BlockType.none, 0⟩).1 = 0) :=
  ⟨(c6_section_discipline "## A\nx".toList ⟨true, true, BlockType.unordered_list, 0⟩).1
      (by decide),
    (c6_section_discipline "# B\nx".toList ⟨true, false, BlockType.none, 0⟩).2.1 (by decide)⟩

theorem scanBacktick_of_split : ∀ (code r' : List Char), backtick ∉ code →
    scanBacktick (code ++ backtick :: r') = some (code, r') := by
  intro code
  induction code with
  | nil =>
    intro r' _
    simp [scanBacktick]
  | cons c cs ih =>
    intro r' hnb
    have hc : ¬c = backtick := fun he => hnb (he ▸ List.mem_cons_self c cs)
    have hcs : backtick ∉ cs := fun hx => hnb (List.mem_cons_of_mem c hx)
    simp only [List.cons_append, scanBacktick, if_neg hc]
    have hA : cs.append (backtick :: r') = cs ++ backtick :: r' := rfl
    rw [hA, ih r' hcs]
    rfl

theorem scanBacktick_none : ∀ (l : List Char), backtick ∉ l → scanBacktick l = none := by
  intro l
  induction l with
  | nil => intro _; rfl
  | cons c t ih =>
    intro hnb
    have hc : ¬c = backtick := fun he => hnb (he ▸ List.mem_cons_self c t)
    have ht : backtick ∉ t := fun hx => hnb (List.mem_cons_of_mem c hx)
    simp [scanBacktick, hc, ih ht]

theorem get_format_type_code_head (c2 : Char) (t : List Char) (hc2 : c2 ≠ backtick) :
    get_format_type (backtick :: c2 :: t) = FormatType.inlineCode := by
  have h1 : ¬(backtick = '*' ∧ c2 = '*') := fun hx => absurd hx.1 (by decide)
  have h2 : ¬(backtick = '_' ∧ c2 = '_') := fun hx => absurd hx.1 (by decide)
  have h3 : ¬(backtick = '=' ∧ c2 = '=') := fun hx => absurd hx.1 (by decide)
  simp only [get_format_type, if_neg h1, if_neg h2, if_neg h3]
  simp [hc2]

theorem wfF_code_step_some (f : Nat) (c2 : Char) (t code r' : List Char) (ctr : Nat)
    (b i h : Bool) (hc2 : c2 ≠ backtick) (hsb : scanBacktick (c2 :: t) = some (code, r')) :
    wfF (f + 1) (backtick :: c2 :: t) ctr b i h =
      (Item.codeSpan code.asString :: (wfF f r' ctr b i h).1, (wfF f r' ctr b i h).2) := by
  simp only [wfF, get_format_type_code_head c2 t hc2, hsb]

theorem wfF_code_step_none (f : Nat) (c2 : Char) (t : List Char) (ctr : Nat)
    (b i h : Bool) (hc2 : c2 ≠ backtick) (hsb : scanBacktick (c2 :: t) = none) :
    wfF (f + 1) (backtick :: c2 :: t) ctr b i h =
      (Item.str (String.singleton backtick) :: (wfF f (c2 :: t) ctr b i h).1,
        (wfF f (c2 :: t) ctr b i h).2) := by
  simp only [wfF, get_format_type_code_head c2 t hc2, hsb]

/-- Claim C5: a single backtick not followed by another backtick opens a code
span.  When the rest of the slice splits as `code ++ backtick :: r'` with no
backtick inside `code` (the scan to the next backtick), the renderer emits
exactly one `codeSpan` holding that text verbatim — rendered as
`<code>…</code>`, with no re-parsing of marks or notes and the toggle state
`b i h` passed through unchanged — and continues after the closing backtick.
When no closing backtick exists, the opening backtick itself is emitted
literally and rendering continues with the next character. -/
theorem c5_code_span (c2 : Char) (t : List Char) (ctr : Nat) (b i h : Bool)
    (hc2 : c2 ≠ backtick) :
    (∀ code r' : List Char, backtick ∉ code → c2 :: t = code ++ backtick :: r' →
      write_formatted_content_from (backtick :: c2 :: t) ctr b i h =
          (Item.codeSpan code.asString ::
              (write_formatted_content_from r' ctr b i h).1,
            (write_formatted_content_from r' ctr b i h).2) ∧
        Item.render (Item.codeSpan code.asString) =
          "<code>" ++ code.asString ++ "</code>") ∧
    (backtick ∉ c2 :: t →
      write_formatted_content_from (backtick :: c2 :: t) ctr b i h =
        (Item.str (String.singleton backtick) ::
            (write_formatted_content_from (c2 :: t) ctr b i h).1,
          (write_formatted_content_from (c2 :: t) ctr b i h).2)) := by
  constructor
  · intro code r' hnb hsplit
    refine ⟨?_, rfl⟩
    have hsb : scanBacktick (c2 :: t) = some (code, r') := by
      rw [hsplit]
      exact scanBacktick_of_split code r' hnb
    have hlen : (backtick :: c2 :: t).length = t.length + 1 + 1 := by simp
    have hle : r'.length ≤ t.length + 1 := by
      have := scanBacktick_some_len hsb
      simp at this
      omega
    simp only [write_formatted_content_from, hlen]
    rw [wfF_code_step_some (t.length + 1) c2 t code r' ctr b i h hc2 hsb]
    rw [wfF_congr (t.length + 1) r'.length r' hle (Nat.le_refl _) ctr b i h]
  · intro hnb
    have hsb : scanBacktick (c2 :: t) = none := scanBacktick_none _ hnb
    have hlen : (backtick :: c2 :: t).length = t.length + 1 + 1 := by simp
    have hlen2 : (c2 :: t).length = t.length + 1 := by simp
    simp only [write_formatted_content_from, hlen, hlen2]
    rw [wfF_code_step_none (t.length + 1) c2 t ctr b i h hc2 hsb]

theorem c5_code_span_witness :
    (write_formatted_content_from (backtick :: 'x' :: [backtick]) 0 false false false =
        (Item.codeSpan (['x'] : List Char).asString ::
            (write_formatted_content_from [] 0 false false false).1,
          (write_formatted_content_from [] 0 false false false).2) ∧
      Item.render (Item.codeSpan (['x'] : List Char).asString) =
        "<code>" ++ (['x'] : List Char).asString ++ "</code>") ∧
    write_formatted_content_from (backtick :: 'z' :: []) 0 false false false =
      (Item.str (String.singleton backtick) ::
          (write_formatted_content_from ['z'] 0 false false false).1,
        (write_formatted_content_from ['z'] 0 false false false).2) :=
  ⟨(c5_code_span 'x' [backtick] 0 false false false (by decide)).1 ['x'] [] (by decide)
      (by decide),
    (c5_code_span 'z' [] 0 false false false (by decide)).2 (by decide)⟩

/-- Claim C4: within one inline-render call (note-free text, so no nested
recursive call contributes events), each of the delimiters `**`, `__`, `==`
toggles its tag on every occurrence: the open/close events of each of
`strong`, `em`, `mark` strictly alternate starting from the entry state and
end closed (`Alt`), any toggle still open at end of slice being forcibly
closed.  Toggles do not nest — in `**a __b** c__` the second `**` closes the
first `<strong>` across the open `<em>` — and the forced closers appear in
the order `</strong>`, `</em>`, `</mark>` as in `==x__y**z`. -/
theorem c4_toggle_discipline (text : List Char) (ctr : Nat) (b i h : Bool)
    (hcar : ('^' : Char) ∉ text) :
    (Alt b (tagEvents Tag.strong (write_formatted_content_from text ctr b i h).1) ∧
      Alt i (tagEvents Tag.em (write_formatted_content_from text ctr b i h).1) ∧
      Alt h (tagEvents Tag.mark (write_formatted_content_from text ctr b i h).1)) ∧
    renderItems (write_formatted_content "**a __b** c__".toList 0).1 =
      "<strong>a <em>b</strong> c</em>" ∧
    renderItems (write_formatted_content "==x__y**z".toList 0).1 =
      "<mark>x<em>y<strong>z</strong></em></mark>" :=
  ⟨wfF_alt text.length text ctr b i h hcar, by decide, by decide⟩

theorem c4_toggle_discipline_witness :
    Alt false
      (tagEvents Tag.strong
        (write_formatted_content_from "**a**".toList 0 false false false).1) ∧
    Alt false
      (tagEvents Tag.em (write_formatted_content_from "**a**".toList 0 false false false).1) ∧
    Alt false
      (tagEvents Tag.mark
        (write_formatted_content_from "**a**".toList 0 false false false).1) :=
  (c4_toggle_discipline "**a**".toList 0 false false false (by decide)).1

/-- Claim C7, corrected: for a page with empty body, date `2024-01-03` and
title `Hello`, the assembled document contains `<h1>Hello</h1>` and the
subtitle line `<p class="subtitle">January  3, 2024</p>` (full month name,
two spaces before the `3`), contains no `<section` and no `<p>` element, and
no invalid-date warning is logged. -/
theorem c7_empty_body_page :
    (build_page "Hello" "" "2024-01-03".toList []).map
        (fun r =>
          containsSub "<h1>Hello</h1>\n".toList (renderItems r.1).toList &&
            containsSub "<p class=\"subtitle\">January  3, 2024</p>".toList
              (renderItems r.1).toList &&
            !containsSub "<section".toList (renderItems r.1).toList &&
            !containsSub "<p>".toList (renderItems r.1).toList &&
            !r.2) =
      some true := by
  decide

theorem c7_expected_subtitle_refuted :
    (build_page "Hello" "" "2024-01-03".toList []).map
        (fun r =>
          containsSub "<p class=\"subtitle\">Jan  3, 2024</p>".toList
            (renderItems r.1).toList) =
      some false := by
  decide

theorem digitsVal_go_lt : ∀ (l : List Char) (acc : Nat), l.all isdigit = true →
    l.foldl (fun a c => 10 * a + (c.toNat - 48)) acc < (acc + 1) * 10 ^ l.length := by
  intro l
  induction l with
  | nil =>
    intro acc _
    simp only [List.foldl_nil, List.length_nil, pow_zero, Nat.mul_one]
    exact Nat.lt_succ_self acc
  | cons c t ih =>
    intro acc hall
    simp only [List.all_cons, Bool.and_eq_true] at hall
    have hd : c.toNat - 48 ≤ 9 := by
      have h9 := hall.1
      simp only [isdigit, Bool.and_eq_true, decide_eq_true_eq] at h9
      omega
    have h1 := ih (10 * acc + (c.toNat - 48)) hall.2
    have h3 : 10 * acc + (c.toNat - 48) + 1 ≤ (acc + 1) * 10 := by omega
    have h4 := Nat.mul_le_mul h3 (Nat.le_refl (10 ^ t.length))
    have h5 : (acc + 1) * 10 * 10 ^ t.length = (acc + 1) * 10 ^ (t.length + 1) := by ring
    simp only [List.foldl_cons, List.length_cons]
    omega

theorem digitsVal_lt (l : List Char) (h : l.all isdigit = true) :
    digitsVal l < 10 ^ l.length := by
  have hg := digitsVal_go_lt l 0 h
  simpa [digitsVal] using hg

theorem months_abbr_getD_len (i : Nat) : (MONTHS_ABBR.getD i "").length ≤ 9 := by
  match i with
  | 0 | 1 | 2 | 3 | 4 | 5 | 6 | 7 | 8 | 9 | 10 | 11 => decide
  | n + 12 =>
    have hlen : MONTHS_ABBR.length ≤ n + 12 := by simp [MONTHS_ABBR]
    simp [List.getD_eq_getElem?_getD, List.getElem?_eq_none hlen]

theorem format_date_shape_ok (dict : List String) (Y M D : List Char)
    (hdict : (dict.getD (digitsVal M - 1) "").length ≤ 9)
    (hYl : Y.length = 4) (hMl : M.length = 2) (hDl : D.length = 2)
    (hY : Y.all isdigit = true) (hM : M.all isdigit = true) (hD : D.all isdigit = true)
    (hm1 : 1 ≤ digitsVal M) (hm2 : digitsVal M ≤ 12) :
    format_date (Y ++ '-' :: (M ++ '-' :: D)) dict =
      FdResult.ok (dict.getD (digitsVal M - 1) "" ++ " " ++
        intPad2 ((digitsVal D : Int)) ++ ", " ++ intPad04 ((digitsVal Y : Int))) := by
  have hYne : Y ≠ [] := by
    intro he
    rw [he] at hYl
    simp at hYl
  have hMne : M ≠ [] := by
    intro he
    rw [he] at hMl
    simp at hMl
  have hDne : D ≠ [] := by
    intro he
    rw [he] at hDl
    simp at hDl
  have hss := sscanf_shape Y M D hY hYne hM hMne hD hDne
  simp only [format_date, hss]
  have hcond : 1 ≤ (digitsVal M : Int) ∧ (digitsVal M : Int) ≤ 12 := by
    constructor <;> omega
  rw [if_pos hcond]
  have htn : ((digitsVal M : Int) - 1).toNat = digitsVal M - 1 := by omega
  rw [htn]
  have hDlt : digitsVal D < 100 := by
    have hv := digitsVal_lt D hD
    rw [hDl] at hv
    simpa using hv
  have hYlt : digitsVal Y < 10000 := by
    have hv := digitsVal_lt Y hY
    rw [hYl] at hv
    simpa using hv
  have l2 := intPad2_len (digitsVal D) hDlt
  have l3 := intPad04_len (digitsVal Y) hYlt
  have s1 : (" " : String).length = 1 := rfl
  have s2 : (", " : String).length = 2 := rfl
  have hlen : (dict.getD (digitsVal M - 1) "" ++ " " ++
      intPad2 ((digitsVal D : Int)) ++ ", " ++ intPad04 ((digitsVal Y : Int))).length ≤ 31 := by
    simp only [String.length_append, s1, s2, l2, l3]
    omega
  rw [truncate31_eq _ hlen]

theorem format_date_shape_abort (dict : List String) (Y M D : List Char)
    (hYl : Y.length = 4) (hMl : M.length = 2) (hDl : D.length = 2)
    (hY : Y.all isdigit = true) (hM : M.all isdigit = true) (hD : D.all isdigit = true)
    (hm : ¬(1 ≤ digitsVal M ∧ digitsVal M ≤ 12)) :
    format_date (Y ++ '-' :: (M ++ '-' :: D)) dict = FdResult.abort := by
  have hYne : Y ≠ [] := by
    intro he
    rw [he] at hYl
    simp at hYl
  have hMne : M ≠ [] := by
    intro he
    rw [he] at hMl
    simp at hMl
  have hDne : D ≠ [] := by
    intro he
    rw [he] at hDl
    simp at hDl
  have hss := sscanf_shape Y M D hY hYne hM hMne hD hDne
  simp only [format_date, hss]
  have hcond : ¬(1 ≤ (digitsVal M : Int) ∧ (digitsVal M : Int) ≤ 12) := by
    intro hx
    exact hm ⟨by omega, by omega⟩
  rw [if_neg hcond]

/-- Claim C1, corrected.  On dashes-separated all-digit fields of widths
4-2-2 (the YYYY-MM-DD shape): with month in 1..12 `format_date` succeeds and
returns "Month DD, YYYY" (full style) or "Mon DD, YYYY" (abbreviated style)
with the day space-padded to width 2 and the year zero-padded to width 4;
with month outside 1..12 either style hits
`assert(month >= 1 && month <= 12)` and terminates the process rather than
reporting failure.  When the scan itself fails (`sscanf` does not convert
three integers), `format_date` reports failure, and `build_page` logs the
warning and emits the page with an empty dateline `<p class="subtitle"></p>`.
(The scan is laxer than the YYYY-MM-DD shape, see the counterexample.) -/
theorem c1_format_date (Y M D : List Char) (title css : String) (date body : List Char) :
    (Y.length = 4 → M.length = 2 → D.length = 2 → Y.all isdigit = true →
      M.all isdigit = true → D.all isdigit = true →
      (1 ≤ digitsVal M → digitsVal M ≤ 12 →
        format_date_full (Y ++ '-' :: (M ++ '-' :: D)) =
          FdResult.ok (MONTHS_FULL.getD (digitsVal M - 1) "" ++ " " ++
            intPad2 ((digitsVal D : Int)) ++ ", " ++ intPad04 ((digitsVal Y : Int))) ∧
        format_date_abbr (Y ++ '-' :: (M ++ '-' :: D)) =
          FdResult.ok (MONTHS_ABBR.getD (digitsVal M - 1) "" ++ " " ++
            intPad2 ((digitsVal D : Int)) ++ ", " ++ intPad04 ((digitsVal Y : Int)))) ∧
      (¬(1 ≤ digitsVal M ∧ digitsVal M ≤ 12) →
        format_date_full (Y ++ '-' :: (M ++ '-' :: D)) = FdResult.abort ∧
        format_date_abbr (Y ++ '-' :: (M ++ '-' :: D)) = FdResult.abort)) ∧
    (date ≠ [] → sscanf_d_d_d date = none →
      ∃ items, build_page title css date body = some (items, true) ∧
        Item.str "<p class=\"subtitle\"></p>\n" ∈ items) := by
  constructor
  · intro hYl hMl hDl hY hM hD
    refine ⟨fun hm1 hm2 => ⟨?_, ?_⟩, fun hm => ⟨?_, ?_⟩⟩
    · exact format_date_shape_ok MONTHS_FULL Y M D (months_full_getD_len _)
        hYl hMl hDl hY hM hD hm1 hm2
    · exact format_date_shape_ok MONTHS_ABBR Y M D (months_abbr_getD_len _)
        hYl hMl hDl hY hM hD hm1 hm2
    · exact format_date_shape_abort MONTHS_FULL Y M D hYl hMl hDl hY hM hD hm
    · exact format_date_shape_abort MONTHS_ABBR Y M D hYl hMl hDl hY hM hD hm
  · intro hne hscan
    have hfd : format_date_full date = FdResult.fail := by
      simp only [format_date_full, format_date, hscan]
    have hsub : Item.str ("<p class=\"subtitle\">" ++ "" ++ "</p>\n") =
        Item.str "<p class=\"subtitle\"></p>\n" := by decide
    refine ⟨html_write_head title css ++
        [Item.str "<body>\n", Item.str "<article>\n",
          Item.str ("<h1>" ++ title ++ "</h1>\n")] ++
        [Item.str ("<p class=\"subtitle\">" ++ "" ++ "</p>\n")] ++ (parse_body body).1 ++
        [Item.str "</article>\n", Item.str "</body>\n", Item.str "</html>\n"], ?_, ?_⟩
    · simp [build_page, hfd, hne]
    · rw [← hsub]
      apply List.mem_append_left
      apply List.mem_append_left
      apply List.mem_append_right
      simp

theorem c1_format_date_witness :
    (format_date_full ("2024".toList ++ '-' :: ("01".toList ++ '-' :: "03".toList)) =
        FdResult.ok (MONTHS_FULL.getD (digitsVal "01".toList - 1) "" ++ " " ++
          intPad2 ((digitsVal "03".toList : Int)) ++ ", " ++
          intPad04 ((digitsVal "2024".toList : Int))) ∧
      format_date_abbr ("2024".toList ++ '-' :: ("01".toList ++ '-' :: "03".toList)) =
        FdResult.ok (MONTHS_ABBR.getD (digitsVal "01".toList - 1) "" ++ " " ++
          intPad2 ((digitsVal "03".toList : Int)) ++ ", " ++
          intPad04 ((digitsVal "2024".toList : Int)))) ∧
    (format_date_full ("2024".toList ++ '-' :: ("13".toList ++ '-' :: "01".toList)) =
        FdResult.abort ∧
      format_date_abbr ("2024".toList ++ '-' :: ("13".toList ++ '-' :: "01".toList)) =
        FdResult.abort) ∧
    ∃ items, build_page "T" "" "bad".toList [] = some (items, true) ∧
      Item.str "<p class=\"subtitle\"></p>\n" ∈ items :=
  ⟨((c1_format_date "2024".toList "01".toList "03".toList "T" "" "bad".toList []).1
        (by decide) (by decide) (by decide) (by decide) (by decide) (by decide)).1
      (by decide) (by decide),
    ((c1_format_date "2024".toList "13".toList "01".toList "T" "" "bad".toList []).1
        (by decide) (by decide) (by decide) (by decide) (by decide) (by decide)).2
      (by decide),
    (c1_format_date "2024".toList "01".toList "03".toList "T" "" "bad".toList []).2
      (by decide) (by decide)⟩

theorem c1_lax_scan_refuted :
    (format_date_full "1-1-1".toList = FdResult.ok "January  1, 0001" ∧
      specShapeYYYYMMDD "1-1-1".toList = false) ∧
    (format_date_full "2024-13-01".toList = FdResult.abort ∧
      build_page "T" "" "2024-13-01".toList [] = none) := by
  decide

end Mksite
